import Mathlib

/-!
# verifyme: signing and verification of build artifacts

A shallow embedding of the three Go programs of the repository

* `main.go` (the minimal signer),
* `action/main.go` (the signer that also publishes a signed environment envelope),
* `verifier/main.go` (the verifier),

together with executable models of the parts of the Go standard library they call
(`encoding/base64`, `encoding/hex`, `encoding/pem`, `encoding/json`, `unicode/utf8`,
`crypto/sha256`, `crypto/elliptic`, `crypto/x509`, `encoding/asn1`, `bytes`, `io`, `os`).  The
library models follow the behaviour of the Go release the programs were written for (Go 1.15,
the first with `ecdsa.SignASN1`); they are written as structural recursions, with explicit
fuel where the library loops on an index, and the fuel is shown never to run out.  The ECDSA
primitives of `crypto/ecdsa` and the random source `rand.Reader` are a parameter of the
development (`Crypto`), with the contract `Crypto.Sound` where a claim needs it.

Go's `string` and `[]byte` are both byte sequences and are modelled by `Bytes`.
-/

namespace VerifyMe

/-- Go's `[]byte` and `string`. -/
abbrev Bytes := List UInt8

deriving instance DecidableEq for Except

/-- The bytes of a string literal of the source (UTF-8, as Go stores it). -/
def str (s : String) : Bytes := s.data.flatMap String.utf8EncodeChar

/-- The `n` low bytes of `x`, big-endian (`binary.BigEndian.PutUint32` and `PutUint64`, and
`big.Int.FillBytes` into a buffer of `n` bytes for an `x` that fits). -/
def beBytes : Nat → Nat → Bytes
  | 0, _ => []
  | n + 1, x => UInt8.ofNat (x >>> (8 * n)) :: beBytes n x

/-- `big.Int.SetBytes`: the unsigned integer of a big-endian byte sequence. -/
def fromBytes (b : Bytes) : Nat := b.foldl (fun acc x => acc * 256 + x.toNat) 0

/-- A Go `error`, by its message. -/
structure Error where
  msg : String
deriving DecidableEq, Repr

/-! ## encoding/hex -/

namespace Hex

/-- The table `hextable` of `encoding/hex`. -/
def hextable : Bytes := str "0123456789abcdef"

/-- `hex.EncodeToString`: two lower-case digits per byte, high nibble first. -/
def EncodeToString : Bytes → Bytes
  | [] => []
  | v :: rest =>
    hextable.getD (v.toNat >>> 4) 0 :: hextable.getD (v.toNat &&& 0x0f) 0 :: EncodeToString rest

end Hex

/-! ## crypto/sha256 -/

namespace Sha256

/-- The round constants `_K`. -/
def K : List Nat :=
  [0x428a2f98, 0x71374491, 0xb5c0fbcf, 0xe9b5dba5, 0x3956c25b, 0x59f111f1, 0x923f82a4, 0xab1c5ed5,
   0xd807aa98, 0x12835b01, 0x243185be, 0x550c7dc3, 0x72be5d74, 0x80deb1fe, 0x9bdc06a7, 0xc19bf174,
   0xe49b69c1, 0xefbe4786, 0x0fc19dc6, 0x240ca1cc, 0x2de92c6f, 0x4a7484aa, 0x5cb0a9dc, 0x76f988da,
   0x983e5152, 0xa831c66d, 0xb00327c8, 0xbf597fc7, 0xc6e00bf3, 0xd5a79147, 0x06ca6351, 0x14292967,
   0x27b70a85, 0x2e1b2138, 0x4d2c6dfc, 0x53380d13, 0x650a7354, 0x766a0abb, 0x81c2c92e, 0x92722c85,
   0xa2bfe8a1, 0xa81a664b, 0xc24b8b70, 0xc76c51a3, 0xd192e819, 0xd6990624, 0xf40e3585, 0x106aa070,
   0x19a4c116, 0x1e376c08, 0x2748774c, 0x34b0bcb5, 0x391c0cb3, 0x4ed8aa4a, 0x5b9cca4f, 0x682e6ff3,
   0x748f82ee, 0x78a5636f, 0x84c87814, 0x8cc70208, 0x90befffa, 0xa4506ceb, 0xbef9a3f7, 0xc67178f2]

/-- Truncation to a `uint32`. -/
def u32 (x : Nat) : Nat := x % 4294967296

/-- Rotation of a 32-bit word to the right: `bits.RotateLeft32(x, -n)`. -/
def rotr (x n : Nat) : Nat := u32 (x >>> n ||| x <<< (32 - n))

/-- Complement of a 32-bit word: Go's unary `^`. -/
def not32 (x : Nat) : Nat := 4294967295 - x

/-- A big-endian 32-bit word from four bytes. -/
def beWord (a b c d : UInt8) : Nat :=
  a.toNat <<< 24 ||| b.toNat <<< 16 ||| c.toNat <<< 8 ||| d.toNat

/-- The first `n` big-endian words of a block. -/
def loadWords : Nat → Bytes → List Nat
  | 0, _ => []
  | n + 1, a :: b :: c :: d :: rest => beWord a b c d :: loadWords n rest
  | _ + 1, _ => []

/-- The message schedule, newest word first: `ws` holds `w[i-1], w[i-2], ...` and `n` more
words are appended. -/
def extend : Nat → List Nat → List Nat
  | 0, ws => ws
  | n + 1, ws =>
    let v1 := ws.getD 1 0
    let t1 := rotr v1 17 ^^^ rotr v1 19 ^^^ (v1 >>> 10)
    let v2 := ws.getD 14 0
    let t2 := rotr v2 7 ^^^ rotr v2 18 ^^^ (v2 >>> 3)
    extend n (u32 (t1 + ws.getD 6 0 + t2 + ws.getD 15 0) :: ws)

/-- The eight working variables (and, between blocks, the chaining value `h0..h7`). -/
structure Regs where
  a : Nat
  b : Nat
  c : Nat
  d : Nat
  e : Nat
  f : Nat
  g : Nat
  h : Nat
deriving DecidableEq, Repr

/-- One round of the compression function. -/
def round (r : Regs) (k w : Nat) : Regs :=
  let t1 := u32 (r.h + (rotr r.e 6 ^^^ rotr r.e 11 ^^^ rotr r.e 25)
    + ((r.e &&& r.f) ^^^ (not32 r.e &&& r.g)) + k + w)
  let t2 := u32 ((rotr r.a 2 ^^^ rotr r.a 13 ^^^ rotr r.a 22)
    + ((r.a &&& r.b) ^^^ (r.a &&& r.c) ^^^ (r.b &&& r.c)))
  { a := u32 (t1 + t2), b := r.a, c := r.b, d := r.c,
    e := u32 (r.d + t1), f := r.e, g := r.f, h := r.g }

/-- The 64 rounds, one per constant and schedule word. -/
def rounds : Regs → List Nat → List Nat → Regs
  | r, k :: ks, w :: ws => rounds (round r k w) ks ws
  | r, _, _ => r

/-- The compression of one 64-byte block (`blockGeneric`, one iteration). -/
def block (h : Regs) (p : Bytes) : Regs :=
  let w := (extend 48 (loadWords 16 p).reverse).reverse
  let r := rounds h K w
  { a := u32 (h.a + r.a), b := u32 (h.b + r.b), c := u32 (h.c + r.c), d := u32 (h.d + r.d),
    e := u32 (h.e + r.e), f := u32 (h.f + r.f), g := u32 (h.g + r.g), h := u32 (h.h + r.h) }

/-- The compression of `n` consecutive blocks. -/
def blocks : Nat → Regs → Bytes → Regs
  | 0, h, _ => h
  | n + 1, h, p => blocks n (block h (p.take 64)) (p.drop 64)

/-- The padding of `checkSum`: a `0x80` byte, zeros up to 56 modulo 64, and the length in bits
as a 64-bit big-endian integer. -/
def pad (m : Bytes) : Bytes :=
  m ++ [0x80] ++ List.replicate ((119 - m.length % 64) % 64) 0
    ++ beBytes 8 (m.length * 8 % 18446744073709551616)

/-- The initial chaining value `init0..init7`. -/
def init : Regs :=
  { a := 0x6a09e667, b := 0xbb67ae85, c := 0x3c6ef372, d := 0xa54ff53a,
    e := 0x510e527f, f := 0x9b05688c, g := 0x1f83d9ab, h := 0x5be0cd19 }

/-- The SHA-256 digest (32 bytes) of a byte sequence. -/
def checkSum (m : Bytes) : Bytes :=
  let p := pad m
  let r := blocks (p.length / 64) init p
  beBytes 4 r.a ++ beBytes 4 r.b ++ beBytes 4 r.c ++ beBytes 4 r.d ++
  beBytes 4 r.e ++ beBytes 4 r.f ++ beBytes 4 r.g ++ beBytes 4 r.h

/-- The state of a `hash.Hash` returned by `sha256.New()`: by the contract of `hash.Hash`
it stands for the bytes written so far. -/
structure Hasher where
  written : Bytes
deriving DecidableEq, Repr

/-- `sha256.New()`. -/
def New : Hasher := { written := [] }

/-- `h.Write(p)`: it never fails. -/
def Hasher.Write (h : Hasher) (p : Bytes) : Hasher := { written := h.written ++ p }

/-- `h.Sum(nil)`: the digest of everything written so far. -/
def Hasher.Sum (h : Hasher) : Bytes := checkSum h.written

end Sha256

/-! ## encoding/base64, `StdEncoding` -/

namespace Base64

/-- The alphabet `encodeStd`. -/
def encodeStd : Bytes :=
  str "ABCDEFGHIJKLMNOPQRSTUVWXYZabcdefghijklmnopqrstuvwxyz0123456789+/"

/-- The padding character `StdPadding`, `'='`. -/
def padChar : UInt8 := 61

/-- `enc.encode[v]` for a 6-bit value. -/
def encodeChar (v : Nat) : UInt8 := encodeStd.getD v 0

/-- `enc.decodeMap[c]`, with `none` for the table's `0xff`. -/
def decodeMap (c : UInt8) : Option Nat :=
  if encodeStd.indexOf c < 64 then some (encodeStd.indexOf c) else none

/-- `base64.StdEncoding.EncodeToString`. -/
def EncodeToString : Bytes → Bytes
  | a :: b :: c :: rest =>
    let val := a.toNat <<< 16 ||| b.toNat <<< 8 ||| c.toNat
    encodeChar (val >>> 18 &&& 0x3F) :: encodeChar (val >>> 12 &&& 0x3F)
      :: encodeChar (val >>> 6 &&& 0x3F) :: encodeChar (val &&& 0x3F) :: EncodeToString rest
  | [a, b] =>
    let val := a.toNat <<< 16 ||| b.toNat <<< 8
    [encodeChar (val >>> 18 &&& 0x3F), encodeChar (val >>> 12 &&& 0x3F),
      encodeChar (val >>> 6 &&& 0x3F), padChar]
  | [a] =>
    let val := a.toNat <<< 16
    [encodeChar (val >>> 18 &&& 0x3F), encodeChar (val >>> 12 &&& 0x3F), padChar, padChar]
  | [] => []

/-- The characters the decoder skips: `'\n'` and `'\r'`. -/
def isNewline (c : UInt8) : Bool := c == 10 || c == 13

/-- The loop `for si < len(src) && (src[si] == '\n' || src[si] == '\r')` of `decodeQuantum`. -/
def skipNewlines : Bytes → Bytes
  | [] => []
  | c :: rest => if isNewline c then skipNewlines rest else c :: rest

/-- The bytes of a quantum of `dlen` six-bit values (`dlen - 1` bytes), as `decodeQuantum`
assembles them. -/
def quantum (d0 d1 d2 d3 : Nat) (dlen : Nat) : Bytes :=
  let val := d0 <<< 18 ||| d1 <<< 12 ||| d2 <<< 6 ||| d3
  ([UInt8.ofNat (val >>> 16), UInt8.ofNat (val >>> 8), UInt8.ofNat (val >>> 0)]).take (dlen - 1)

/-- `CorruptInputError`, without its offset. -/
inductive CorruptInputError
  | corrupt
deriving DecidableEq, Repr

/-- The end of `decodeQuantum` when the padding character is met with `dbuf` read: the second
`=` of a two-character quantum, the newlines that may follow, and nothing after them. -/
def decodePadding (dbuf : List Nat) (rest : Bytes) : Except CorruptInputError Bytes :=
  match dbuf with
  | [d0, d1] =>
    match skipNewlines rest with
    | [] => .error .corrupt
    | c2 :: rest2 =>
      if c2 != padChar then .error .corrupt
      else if (skipNewlines rest2).isEmpty then .ok (quantum d0 d1 0 0 2)
      else .error .corrupt
  | [d0, d1, d2] =>
    if (skipNewlines rest).isEmpty then .ok (quantum d0 d1 d2 0 3) else .error .corrupt
  | _ => .error .corrupt

/-- The bytes decoded so far, before those of the rest of the input. -/
def prepend (q : Bytes) : Except CorruptInputError Bytes → Except CorruptInputError Bytes
  | .ok out => .ok (q ++ out)
  | .error e => .error e

/-- The decoding loop of `Encoding.Decode`: `dbuf` holds the six-bit values of the quantum
being read.  An error discards the bytes decoded so far, as `mustDecode` does. -/
def decodeLoop : Bytes → List Nat → Except CorruptInputError Bytes
  | [], dbuf => if dbuf.isEmpty then .ok [] else .error .corrupt
  | c :: rest, dbuf =>
    match decodeMap c with
    | some v =>
      if dbuf.length == 3 then
        prepend (quantum (dbuf.getD 0 0) (dbuf.getD 1 0) (dbuf.getD 2 0) v 4) (decodeLoop rest [])
      else decodeLoop rest (dbuf ++ [v])
    | none =>
      if isNewline c then decodeLoop rest dbuf
      else if c != padChar then .error .corrupt
      else decodePadding dbuf rest

/-- `base64.StdEncoding.DecodeString`. -/
def DecodeString (s : Bytes) : Except CorruptInputError Bytes := decodeLoop s []

end Base64

/-! ## Package `bytes` -/

namespace GoBytes

/-- `bytes.HasPrefix`. -/
def HasPrefix (s pre : Bytes) : Bool := pre.isPrefixOf s

/-- `bytes.HasSuffix`. -/
def HasSuffix (s suf : Bytes) : Bool := suf.reverse.isPrefixOf s.reverse

/-- `bytes.Index`: the index of the first instance of `sep` in `s`, `none` for `-1`. -/
def Index : Bytes → Bytes → Option Nat
  | [], sep => if sep.isEmpty then some 0 else none
  | c :: rest, sep =>
    if sep.isPrefixOf (c :: rest) then some 0
    else
      match Index rest sep with
      | some i => some (i + 1)
      | none => none

/-- `bytes.IndexByte`. -/
def IndexByte : Bytes → UInt8 → Option Nat
  | [], _ => none
  | x :: rest, c =>
    if x == c then some 0
    else
      match IndexByte rest c with
      | some i => some (i + 1)
      | none => none

/-- Removal of the leading bytes that satisfy `p`. -/
def trimLeftFunc (p : UInt8 → Bool) : Bytes → Bytes
  | [] => []
  | c :: rest => if p c then trimLeftFunc p rest else c :: rest

/-- `bytes.TrimRight(s, cutset)` for a cutset of single-byte characters. -/
def TrimRight (s cutset : Bytes) : Bytes :=
  (trimLeftFunc (fun c => cutset.contains c) s.reverse).reverse

/-- The ASCII white space of `bytes.TrimSpace`: tab, newline, vertical tab, form feed,
carriage return and space. -/
def isSpace (c : UInt8) : Bool :=
  c == 9 || c == 10 || c == 11 || c == 12 || c == 13 || c == 32

/-- `bytes.TrimSpace`, on ASCII data. -/
def TrimSpace (s : Bytes) : Bytes :=
  (trimLeftFunc isSpace (trimLeftFunc isSpace s).reverse).reverse

end GoBytes

/-! ## encoding/pem -/

namespace Pem

open GoBytes

/-- A `pem.Block`.  The field `Type` is written `type`; `Headers` is kept as the list of header lines read, in order. -/
structure Block where
  type : Bytes
  headers : List (Bytes × Bytes)
  bytes : Bytes
deriving DecidableEq, Repr

def pemStart : Bytes := str "\n-----BEGIN "
def pemEnd : Bytes := str "\n-----END "
def pemEndOfLine : Bytes := str "-----"

/-- The function `getLine`: the first line of `data` without its end-of-line and without trailing
spaces and tabs, and what follows that line. -/
def getLine (data : Bytes) : Bytes × Bytes :=
  match IndexByte data 10 with
  | none => (TrimRight data (str " \t"), [])
  | some i =>
    let j := i + 1
    let i := if i > 0 && data.getD (i - 1) 0 == 13 then i - 1 else i
    (TrimRight (data.take i) (str " \t"), data.drop j)

/-- The function `removeSpacesAndTabs`. -/
def removeSpacesAndTabs (data : Bytes) : Bytes :=
  data.filter fun b => !(b == 32 || b == 9)

/-- The header loop of `Decode`: header lines (those with a colon) are read off `rest`.
`none` when the data runs out inside the loop (`return nil, data`); otherwise the headers read
and the remaining data, which starts with the first line without a colon. -/
def readHeaders : Nat → Bytes → List (Bytes × Bytes) → Option (List (Bytes × Bytes) × Bytes)
  | 0, _, _ => none
  | fuel + 1, rest, hs =>
    if rest.isEmpty then none
    else
      let line := (getLine rest).1
      let next := (getLine rest).2
      match IndexByte line 58 with
      | none => some (hs, rest)
      | some i =>
        let key := TrimSpace (line.take i)
        let val := TrimSpace (line.drop (i + 1))
        readHeaders fuel next (hs ++ [(key, val)])

/-- The outcome of one pass of `pem.Decode` over the data: no `-----BEGIN` line at all, a
candidate block that is rejected (`Decode` then starts over on the data after the lines it has
read), or a block and the data after it. -/
inductive Attempt
  | notFound
  | rejected (rest : Bytes)
  | found (p : Block) (rest : Bytes)
deriving DecidableEq, Repr

/-- One pass of `pem.Decode`: from the first `-----BEGIN` line to the result for the block that
it opens. -/
def decodeOnce (data : Bytes) : Attempt :=
  let start : Option Bytes :=
    if HasPrefix data (pemStart.drop 1) then some (data.drop (pemStart.length - 1))
    else
      match Index data pemStart with
      | some i => some (data.drop (i + pemStart.length))
      | none => none
  match start with
  | none => .notFound
  | some rest0 =>
    let typeLine0 := (getLine rest0).1
    let rest1 := (getLine rest0).2
    if !HasSuffix typeLine0 pemEndOfLine then .rejected rest1
    else
      let typeLine := typeLine0.take (typeLine0.length - pemEndOfLine.length)
      match readHeaders (rest1.length + 1) rest1 [] with
      | none => .notFound
      | some (headers, rest) =>
        let ends : Option (Nat × Nat) :=
          if headers.isEmpty && HasPrefix rest (pemEnd.drop 1) then some (0, pemEnd.length - 1)
          else
            match Index rest pemEnd with
            | some i => some (i, i + pemEnd.length)
            | none => none
        match ends with
        | none => .rejected rest
        | some (endIndex, endTrailerIndex) =>
          let endTrailer0 := rest.drop endTrailerIndex
          let endTrailerLen := typeLine.length + pemEndOfLine.length
          if endTrailer0.length < endTrailerLen then .rejected rest
          else
            let restOfEndLine := endTrailer0.drop endTrailerLen
            let endTrailer := endTrailer0.take endTrailerLen
            if !HasPrefix endTrailer typeLine || !HasSuffix endTrailer pemEndOfLine then
              .rejected rest
            else if (getLine restOfEndLine).1.length != 0 then .rejected rest
            else
              match Base64.DecodeString (removeSpacesAndTabs (rest.take endIndex)) with
              | .error _ => .rejected rest
              | .ok bytes =>
                .found { type := typeLine, headers := headers, bytes := bytes }
                  (getLine (rest.drop (endIndex + pemEnd.length - 1))).2

/-- The passes of `pem.Decode`, at most `fuel` of them. -/
def decodeFuel : Nat → Bytes → Option (Block × Bytes)
  | 0, _ => none
  | fuel + 1, data =>
    match decodeOnce data with
    | .notFound => none
    | .rejected rest => decodeFuel fuel rest
    | .found p rest => some (p, rest)

/-- `pem.Decode`: the first PEM block of `data` and the data after it, or `none` (Go's `nil`
block) when no PEM block is found.  Every new pass works on strictly less data, so
`data.length + 1` passes are never used up. -/
def Decode (data : Bytes) : Option (Block × Bytes) := decodeFuel (data.length + 1) data

/-- The `lineBreaker` of `pem.Encode`: a newline after every 64th character, and one after a
last, shorter line; `used` is the number of characters on the current line. -/
def breakLines : Nat → Bytes → Bytes
  | used, [] => if used > 0 then [10] else []
  | used, c :: rest =>
    if used + 1 = 64 then c :: 10 :: breakLines 0 rest else c :: breakLines (used + 1) rest

/-- `pem.EncodeToMemory` for a block without headers (the programs build no other). -/
def EncodeToMemory (b : Block) : Bytes :=
  pemStart.drop 1 ++ b.type ++ str "-----\n"
    ++ breakLines 0 (Base64.EncodeToString b.bytes)
    ++ pemEnd.drop 1 ++ b.type ++ str "-----\n"

end Pem

/-! ## crypto/elliptic and the keys of crypto/ecdsa -/

/-- The named curves of `crypto/elliptic`. -/
inductive Curve
  | P224
  | P256
  | P384
  | P521
deriving DecidableEq, Repr

namespace Curve

/-- `Params().BitSize`. -/
def BitSize : Curve → Nat
  | P224 => 224
  | P256 => 256
  | P384 => 384
  | P521 => 521

/-- `Params().P`, the order of the underlying field. -/
def P : Curve → Nat
  | P224 => 2 ^ 224 - 2 ^ 96 + 1
  | P256 => 2 ^ 256 - 2 ^ 224 + 2 ^ 192 + 2 ^ 96 - 1
  | P384 => 2 ^ 384 - 2 ^ 128 - 2 ^ 96 + 2 ^ 32 - 1
  | P521 => 2 ^ 521 - 1

/-- `Params().B`, the constant of the curve equation. -/
def B : Curve → Nat
  | P224 => 0xb4050a850c04b3abf54132565044b0b7d7bfd8ba270b39432355ffb4
  | P256 => 0x5ac635d8aa3a93e7b3ebbd55769886bc651d06b0cc53b0f63bce3c3e27d2604b
  | P384 => 0xb3312fa7e23ee7e4988e056be3f82d19181d9c6efe8141120314088f5013875ac656398d8a2ed19d2a85c8edd3ec2aef
  | P521 => 0x051953eb9618e1c9a1f929a21a0b68540eea2da725b99b315f3b8b489918ef109e156193951ec7e937b1652c0bd3bb1bf073573df883d2c34f1ef451fd46b503f00

/-- `IsOnCurve`: `y² = x³ - 3x + b` in the field. -/
def IsOnCurve (c : Curve) (x y : Nat) : Bool :=
  let y2 : Int := (y : Int) * y % c.P
  let x3 : Int := ((x : Int) * x * x - ((x : Int) * 2 + x) + c.B) % c.P
  x3 == y2

/-- The length in bytes of a field element. -/
def byteLen (c : Curve) : Nat := (c.BitSize + 7) / 8

/-- `elliptic.Marshal`: the uncompressed form of a point. -/
def Marshal (c : Curve) (x y : Nat) : Bytes :=
  4 :: (beBytes c.byteLen x ++ beBytes c.byteLen y)

/-- `elliptic.Unmarshal`: the point of an uncompressed form, `none` (Go's `nil, nil`) when the
form is not that of a point of the curve. -/
def Unmarshal (c : Curve) (data : Bytes) : Option (Nat × Nat) :=
  if data.length != 1 + 2 * c.byteLen then none
  else if data.getD 0 0 != 4 then none
  else
    let x := fromBytes ((data.drop 1).take c.byteLen)
    let y := fromBytes (data.drop (1 + c.byteLen))
    if x ≥ c.P || y ≥ c.P then none
    else if !c.IsOnCurve x y then none
    else some (x, y)

end Curve

namespace Ecdsa

/-- An `ecdsa.PublicKey`. -/
structure PublicKey where
  Curve : Curve
  X : Nat
  Y : Nat
deriving DecidableEq, Repr

/-- An `ecdsa.PrivateKey`. -/
structure PrivateKey where
  PublicKey : PublicKey
  D : Nat
deriving DecidableEq, Repr

end Ecdsa

/-! ## encoding/asn1 -/

namespace Asn1

/-- The result of `parseTagAndLength`; `cls` is the field `class`. -/
structure TagAndLength where
  cls : Nat
  tag : Nat
  length : Nat
  isCompound : Bool
deriving DecidableEq, Repr

/-- `parseBase128Int`: `shifted` bytes have been read into `ret64`. -/
def parseBase128Int : Bytes → Nat → Nat → Except Error (Nat × Bytes)
  | [], _, _ => .error ⟨"asn1: syntax error: truncated base 128 integer"⟩
  | b :: rest, shifted, ret64 =>
    if shifted == 5 then .error ⟨"asn1: structure error: base 128 integer too large"⟩
    else if shifted == 0 && b == 0x80 then
      .error ⟨"asn1: syntax error: integer is not minimally encoded"⟩
    else
      let r := ret64 <<< 7 ||| (b.toNat &&& 0x7f)
      if b.toNat &&& 0x80 == 0 then
        if r > 2147483647 then .error ⟨"asn1: structure error: base 128 integer too large"⟩
        else .ok (r, rest)
      else parseBase128Int rest (shifted + 1) r

/-- The loop of `parseTagAndLength` over the `numBytes` bytes of a long-form length. -/
def parseLongLength : Nat → Bytes → Nat → Except Error (Nat × Bytes)
  | 0, rest, length => .ok (length, rest)
  | _ + 1, [], _ => .error ⟨"asn1: syntax error: truncated tag or length"⟩
  | n + 1, b :: rest, length =>
    if length ≥ 1 <<< 23 then .error ⟨"asn1: structure error: length too large"⟩
    else
      let l := length <<< 8 ||| b.toNat
      if l == 0 then .error ⟨"asn1: structure error: superfluous leading zeros in length"⟩
      else parseLongLength n rest l

/-- The second half of `parseTagAndLength`: the length octets. -/
def parseLength (cls tag : Nat) (isCompound : Bool) : Bytes → Except Error (TagAndLength × Bytes)
  | [] => .error ⟨"asn1: syntax error: truncated tag or length"⟩
  | b :: rest =>
    if b.toNat &&& 0x80 == 0 then
      .ok ({ cls := cls, tag := tag, length := b.toNat &&& 0x7f, isCompound := isCompound }, rest)
    else
      let numBytes := b.toNat &&& 0x7f
      if numBytes == 0 then .error ⟨"asn1: syntax error: indefinite length found (not DER)"⟩
      else
        match parseLongLength numBytes rest 0 with
        | .error e => .error e
        | .ok (length, rest1) =>
          if length < 0x80 then .error ⟨"asn1: structure error: non-minimal length"⟩
          else
            .ok ({ cls := cls, tag := tag, length := length, isCompound := isCompound }, rest1)

/-- `parseTagAndLength`: the identifier and length octets of an element, and what follows. -/
def parseTagAndLength : Bytes → Except Error (TagAndLength × Bytes)
  | [] => .error ⟨"asn1: internal error in parseTagAndLength"⟩
  | b :: rest =>
    let cls := b.toNat >>> 6
    let isCompound := b.toNat &&& 0x20 == 0x20
    let tag := b.toNat &&& 0x1f
    if tag == 0x1f then
      match parseBase128Int rest 0 0 with
      | .error e => .error e
      | .ok (t, rest1) =>
        if t < 0x1f then .error ⟨"asn1: syntax error: non-minimal tag"⟩
        else parseLength cls t isCompound rest1
    else parseLength cls tag isCompound rest

/-- The head of `parseField` for a required field whose Go type has the universal tag
`expectedTag`: the contents of the element and the bytes after it. -/
def parseElement (expectedTag : Nat) (compound : Bool) (bytes : Bytes) :
    Except Error (Bytes × Bytes) :=
  if bytes.isEmpty then .error ⟨"asn1: syntax error: sequence truncated"⟩
  else
    match parseTagAndLength bytes with
    | .error e => .error e
    | .ok (t, rest) =>
      if t.cls != 0 || t.tag != expectedTag || t.isCompound != compound then
        .error ⟨"asn1: structure error: tags don't match"⟩
      else if t.length > rest.length then .error ⟨"asn1: syntax error: data truncated"⟩
      else .ok (rest.take t.length, rest.drop t.length)

/-- The function `parseField` for an optional `asn1.RawValue`: its `FullBytes` (empty when the
element is absent) and the bytes after it. -/
def parseOptionalRawValue (bytes : Bytes) : Except Error (Bytes × Bytes) :=
  if bytes.isEmpty then .ok ([], [])
  else
    match parseTagAndLength bytes with
    | .error e => .error e
    | .ok (t, rest) =>
      if t.length > rest.length then .error ⟨"asn1: syntax error: data truncated"⟩
      else .ok (bytes.take (bytes.length - rest.length + t.length), rest.drop t.length)

/-- The loop of `parseObjectIdentifier` over the components after the first two. -/
def parseOIDTail : Nat → Bytes → Except Error (List Nat)
  | 0, _ => .ok []
  | fuel + 1, bytes =>
    if bytes.isEmpty then .ok []
    else
      match parseBase128Int bytes 0 0 with
      | .error e => .error e
      | .ok (v, rest) =>
        match parseOIDTail fuel rest with
        | .error e => .error e
        | .ok vs => .ok (v :: vs)

/-- `parseObjectIdentifier`. -/
def parseObjectIdentifier (bytes : Bytes) : Except Error (List Nat) :=
  if bytes.isEmpty then .error ⟨"asn1: syntax error: zero length OBJECT IDENTIFIER"⟩
  else
    match parseBase128Int bytes 0 0 with
    | .error e => .error e
    | .ok (v, rest) =>
      match parseOIDTail bytes.length rest with
      | .error e => .error e
      | .ok vs => if v < 80 then .ok (v / 40 :: v % 40 :: vs) else .ok (2 :: (v - 80) :: vs)

/-- An `asn1.BitString`. -/
structure BitString where
  bytes : Bytes
  BitLength : Nat
deriving DecidableEq, Repr

/-- `parseBitString`. -/
def parseBitString (bytes : Bytes) : Except Error BitString :=
  match bytes with
  | [] => .error ⟨"asn1: syntax error: zero length BIT STRING"⟩
  | p :: body =>
    let paddingBits := p.toNat
    if paddingBits > 7 || (bytes.length == 1 && paddingBits > 0)
        || (bytes.getLastD 0).toNat &&& (1 <<< paddingBits - 1) != 0 then
      .error ⟨"asn1: syntax error: invalid padding bits in BIT STRING"⟩
    else .ok { bytes := body, BitLength := (bytes.length - 1) * 8 - paddingBits }

/-- The shifting loop of `BitString.RightAlign`: `prev` is the byte before the current one. -/
def shiftRight (shift : Nat) : UInt8 → Bytes → Bytes
  | _, [] => []
  | prev, b :: rest =>
    UInt8.ofNat (prev.toNat <<< (8 - shift) ||| b.toNat >>> shift) :: shiftRight shift b rest

/-- `BitString.RightAlign`. -/
def BitString.RightAlign (b : BitString) : Bytes :=
  let shift := 8 - b.BitLength % 8
  if shift == 8 || b.bytes.length == 0 then b.bytes
  else
    match b.bytes with
    | [] => []
    | b0 :: rest => UInt8.ofNat (b0.toNat >>> shift) :: shiftRight shift b0 rest

/-- `checkInteger`: an INTEGER is not empty and is minimally encoded. -/
def checkInteger : Bytes → Except Error Unit
  | [] => .error ⟨"asn1: structure error: empty integer"⟩
  | [_] => .ok ()
  | b0 :: b1 :: _ =>
    if (b0 == 0 && b1.toNat &&& 0x80 == 0) || (b0 == 0xff && b1.toNat &&& 0x80 == 0x80) then
      .error ⟨"asn1: structure error: integer not minimally-encoded"⟩
    else .ok ()

/-- The two's-complement value of a non-empty big-endian byte sequence. -/
def twosComplement (bytes : Bytes) : Int :=
  if (bytes.getD 0 0).toNat &&& 0x80 == 0x80 then
    (fromBytes bytes : Int) - (2 : Int) ^ (8 * bytes.length)
  else (fromBytes bytes : Int)

/-- `parseBigInt`. -/
def parseBigInt (bytes : Bytes) : Except Error Int :=
  match checkInteger bytes with
  | .error e => .error e
  | .ok _ => .ok (twosComplement bytes)

/-- `parseInt64`, the parser of a field of Go type `int`. -/
def parseInt64 (bytes : Bytes) : Except Error Int :=
  match checkInteger bytes with
  | .error e => .error e
  | .ok _ =>
    if bytes.length > 8 then .error ⟨"asn1: structure error: integer too large"⟩
    else .ok (twosComplement bytes)

/-- The function `appendBase128Int`: `n` in groups of seven bits, `l` groups of them. -/
def base128Groups : Nat → Nat → Bytes
  | 0, _ => []
  | l + 1, n =>
    (if l == 0 then UInt8.ofNat (n >>> (7 * l) &&& 0x7f)
      else UInt8.ofNat (n >>> (7 * l) &&& 0x7f ||| 0x80)) :: base128Groups l n

/-- `base128IntLength`, for `n` below `2^35`. -/
def base128IntLength (n : Nat) : Nat :=
  if n == 0 then 1
  else if n < 2 ^ 7 then 1
  else if n < 2 ^ 14 then 2
  else if n < 2 ^ 21 then 3
  else if n < 2 ^ 28 then 4
  else 5

/-- The function `appendBase128Int`. -/
def appendBase128Int (n : Nat) : Bytes := base128Groups (base128IntLength n) n

/-- The contents of an OBJECT IDENTIFIER (`makeObjectIdentifier`); `none` for an identifier that
Go refuses to marshal. -/
def encodeObjectIdentifier : List Nat → Option Bytes
  | o0 :: o1 :: rest =>
    if o0 > 2 || (o0 ≤ 1 && o1 ≥ 40) then none
    else some (appendBase128Int (o0 * 40 + o1) ++ rest.flatMap appendBase128Int)
  | _ => none

/-- `lengthLength`, for a length below `2^32`. -/
def lengthLength (i : Nat) : Nat :=
  if i < 2 ^ 8 then 1 else if i < 2 ^ 16 then 2 else if i < 2 ^ 24 then 3 else 4

/-- The length octets of an element (`appendTagAndLength`, after the identifier octet). -/
def encodeLength (length : Nat) : Bytes :=
  if length ≥ 128 then
    UInt8.ofNat (0x80 ||| lengthLength length) :: beBytes (lengthLength length) length
  else [UInt8.ofNat length]

/-- An element with a one-byte identifier octet. -/
def element (identifier : UInt8) (contents : Bytes) : Bytes :=
  identifier :: (encodeLength contents.length ++ contents)

end Asn1

/-! ## crypto/x509: PKIX public keys -/

namespace X509

open Asn1

/-- The dynamic type of the value `ParsePKIXPublicKey` returns: `*rsa.PublicKey`,
`*dsa.PublicKey`, `*ecdsa.PublicKey` or `ed25519.PublicKey`. -/
inductive PublicKey
  | rsa (N : Int) (E : Int)
  | dsa (P Q G Y : Int)
  | ecdsa (k : Ecdsa.PublicKey)
  | ed25519 (k : Bytes)
deriving DecidableEq, Repr

def oidPublicKeyRSA : List Nat := [1, 2, 840, 113549, 1, 1, 1]
def oidPublicKeyDSA : List Nat := [1, 2, 840, 10040, 4, 1]
def oidPublicKeyECDSA : List Nat := [1, 2, 840, 10045, 2, 1]
def oidPublicKeyEd25519 : List Nat := [1, 3, 101, 112]

def oidNamedCurveP224 : List Nat := [1, 3, 132, 0, 33]
def oidNamedCurveP256 : List Nat := [1, 2, 840, 10045, 3, 1, 7]
def oidNamedCurveP384 : List Nat := [1, 3, 132, 0, 34]
def oidNamedCurveP521 : List Nat := [1, 3, 132, 0, 35]

/-- The function `namedCurveFromOID`. -/
def namedCurveFromOID (oid : List Nat) : Option Curve :=
  if oid == oidNamedCurveP224 then some .P224
  else if oid == oidNamedCurveP256 then some .P256
  else if oid == oidNamedCurveP384 then some .P384
  else if oid == oidNamedCurveP521 then some .P521
  else none

/-- The function `oidFromNamedCurve`. -/
def oidFromNamedCurve : Curve → List Nat
  | .P224 => oidNamedCurveP224
  | .P256 => oidNamedCurveP256
  | .P384 => oidNamedCurveP384
  | .P521 => oidNamedCurveP521

/-- The struct `publicKeyInfo`, with the two fields of its `Algorithm` inlined: the algorithm
identifier and the `FullBytes` of its parameters. -/
structure publicKeyInfo where
  Algorithm : List Nat
  Parameters : Bytes
  PublicKey : BitString
deriving DecidableEq, Repr

/-- `asn1.Unmarshal(derBytes, &pki)` for `pki` of type `publicKeyInfo`: a SEQUENCE of an
algorithm identifier (a SEQUENCE of an OBJECT IDENTIFIER and optional parameters) and a BIT
STRING; bytes after the last field of a SEQUENCE are allowed.  The second result is the data
after the outer element. -/
def unmarshalPublicKeyInfo (derBytes : Bytes) : Except Error (publicKeyInfo × Bytes) :=
  match parseElement 16 true derBytes with
  | .error e => .error e
  | .ok (inner, rest) =>
    match parseElement 16 true inner with
    | .error e => .error e
    | .ok (algorithm, afterAlgorithm) =>
      match parseElement 6 false algorithm with
      | .error e => .error e
      | .ok (oidBytes, afterOid) =>
        match parseObjectIdentifier oidBytes with
        | .error e => .error e
        | .ok oid =>
          match parseOptionalRawValue afterOid with
          | .error e => .error e
          | .ok (parameters, _) =>
            match parseElement 3 false afterAlgorithm with
            | .error e => .error e
            | .ok (bitBytes, _) =>
              match parseBitString bitBytes with
              | .error e => .error e
              | .ok bits =>
                .ok ({ Algorithm := oid, Parameters := parameters, PublicKey := bits }, rest)

/-- `asn1.Unmarshal` into a `*big.Int`: one INTEGER, and the data after it. -/
def unmarshalBigInt (der : Bytes) : Except Error (Int × Bytes) :=
  match parseElement 2 false der with
  | .error e => .error e
  | .ok (bytes, rest) =>
    match parseBigInt bytes with
    | .error e => .error e
    | .ok v => .ok (v, rest)

/-- `asn1.Unmarshal` into a `pkcs1PublicKey`: a SEQUENCE of the INTEGERs `N` (a `*big.Int`)
and `E` (an `int`). -/
def unmarshalPkcs1PublicKey (der : Bytes) : Except Error ((Int × Int) × Bytes) :=
  match parseElement 16 true der with
  | .error e => .error e
  | .ok (inner, rest) =>
    match unmarshalBigInt inner with
    | .error e => .error e
    | .ok (n, afterN) =>
      match parseElement 2 false afterN with
      | .error e => .error e
      | .ok (eBytes, _) =>
        match parseInt64 eBytes with
        | .error e => .error e
        | .ok e => .ok ((n, e), rest)

/-- `asn1.Unmarshal` into a `dsaAlgorithmParameters`: a SEQUENCE of the INTEGERs `P`, `Q`,
`G`. -/
def unmarshalDsaParameters (der : Bytes) : Except Error ((Int × Int × Int) × Bytes) :=
  match parseElement 16 true der with
  | .error e => .error e
  | .ok (inner, rest) =>
    match unmarshalBigInt inner with
    | .error e => .error e
    | .ok (p, afterP) =>
      match unmarshalBigInt afterP with
      | .error e => .error e
      | .ok (q, afterQ) =>
        match unmarshalBigInt afterQ with
        | .error e => .error e
        | .ok (g, _) => .ok ((p, q, g), rest)

/-- The case `RSA` of `parsePublicKey`. -/
def parseRSA (keyData : publicKeyInfo) (asn1Data : Bytes) : Except Error PublicKey :=
  if keyData.Parameters != [5, 0] then .error ⟨"x509: RSA key missing NULL parameters"⟩
  else
    match unmarshalPkcs1PublicKey asn1Data with
    | .error e => .error e
    | .ok ((n, e), rest) =>
      if rest.length != 0 then .error ⟨"x509: trailing data after RSA public key"⟩
      else if n ≤ 0 then .error ⟨"x509: RSA modulus is not a positive number"⟩
      else if e ≤ 0 then .error ⟨"x509: RSA public exponent is not a positive number"⟩
      else .ok (.rsa n e)

/-- The case `DSA` of `parsePublicKey`. -/
def parseDSA (keyData : publicKeyInfo) (asn1Data : Bytes) : Except Error PublicKey :=
  match unmarshalBigInt asn1Data with
  | .error e => .error e
  | .ok (y, rest) =>
    if rest.length != 0 then .error ⟨"x509: trailing data after DSA public key"⟩
    else
      match unmarshalDsaParameters keyData.Parameters with
      | .error e => .error e
      | .ok ((p, q, g), rest1) =>
        if rest1.length != 0 then .error ⟨"x509: trailing data after DSA parameters"⟩
        else if y ≤ 0 || p ≤ 0 || q ≤ 0 || g ≤ 0 then
          .error ⟨"x509: zero or negative DSA parameter"⟩
        else .ok (.dsa p q g y)

/-- The case `ECDSA` of `parsePublicKey`. -/
def parseECDSA (keyData : publicKeyInfo) (asn1Data : Bytes) : Except Error PublicKey :=
  match parseElement 6 false keyData.Parameters with
  | .error _ => .error ⟨"x509: failed to parse ECDSA parameters as named curve"⟩
  | .ok (oidBytes, rest) =>
    match parseObjectIdentifier oidBytes with
    | .error _ => .error ⟨"x509: failed to parse ECDSA parameters as named curve"⟩
    | .ok namedCurveOID =>
      if rest.length != 0 then .error ⟨"x509: trailing data after ECDSA parameters"⟩
      else
        match namedCurveFromOID namedCurveOID with
        | none => .error ⟨"x509: unsupported elliptic curve"⟩
        | some namedCurve =>
          match namedCurve.Unmarshal asn1Data with
          | none => .error ⟨"x509: failed to unmarshal elliptic curve point"⟩
          | some (x, y) => .ok (.ecdsa { Curve := namedCurve, X := x, Y := y })

/-- The case `Ed25519` of `parsePublicKey`. -/
def parseEd25519 (keyData : publicKeyInfo) (asn1Data : Bytes) : Except Error PublicKey :=
  if keyData.Parameters.length != 0 then .error ⟨"x509: Ed25519 key encoded with illegal parameters"⟩
  else if asn1Data.length != 32 then .error ⟨"x509: wrong Ed25519 public key size"⟩
  else .ok (.ed25519 asn1Data)

/-- The function `parsePublicKey`, after `getPublicKeyAlgorithmFromOID`. -/
def parsePublicKey (keyData : publicKeyInfo) : Except Error PublicKey :=
  let asn1Data := keyData.PublicKey.RightAlign
  if keyData.Algorithm == oidPublicKeyRSA then parseRSA keyData asn1Data
  else if keyData.Algorithm == oidPublicKeyDSA then parseDSA keyData asn1Data
  else if keyData.Algorithm == oidPublicKeyECDSA then parseECDSA keyData asn1Data
  else if keyData.Algorithm == oidPublicKeyEd25519 then parseEd25519 keyData asn1Data
  else .error ⟨"x509: unknown public key algorithm"⟩

/-- `x509.ParsePKIXPublicKey`. -/
def ParsePKIXPublicKey (derBytes : Bytes) : Except Error PublicKey :=
  match unmarshalPublicKeyInfo derBytes with
  | .error e =>
    match unmarshalPkcs1PublicKey derBytes with
    | .ok _ =>
      .error ⟨"x509: failed to parse public key (use ParsePKCS1PublicKey instead for this key format)"⟩
    | .error _ => .error e
  | .ok (pki, rest) =>
    if rest.length != 0 then .error ⟨"x509: trailing data after ASN.1 of public-key"⟩
    else parsePublicKey pki

/-- `x509.MarshalPKIXPublicKey` for an `*ecdsa.PublicKey`, the only kind of key the programs
marshal: a SEQUENCE of the algorithm identifier (the OBJECT IDENTIFIER of ECDSA and that of the
named curve) and the BIT STRING of the uncompressed point.  A coordinate that does not fit the
curve's field length makes `elliptic.Marshal` panic; that is the error here. -/
def MarshalPKIXPublicKey (pub : Ecdsa.PublicKey) : Except Error Bytes :=
  if pub.X ≥ 2 ^ (8 * pub.Curve.byteLen) || pub.Y ≥ 2 ^ (8 * pub.Curve.byteLen) then
    .error ⟨"math/big: buffer too small to fit value"⟩
  else
    let publicKeyBytes := pub.Curve.Marshal pub.X pub.Y
    match encodeObjectIdentifier oidPublicKeyECDSA,
        encodeObjectIdentifier (oidFromNamedCurve pub.Curve) with
    | some algorithm, some paramBytes =>
      .ok (element 0x30 (element 0x30 (element 0x06 algorithm ++ element 0x06 paramBytes)
        ++ element 0x03 (0 :: publicKeyBytes)))
    | _, _ => .error ⟨"asn1: structure error: invalid object identifier"⟩

end X509

/-! ## unicode/utf8 and encoding/json -/

namespace Utf8

/-- `utf8.RuneError`. -/
def RuneError : Nat := 0xFFFD

/-- The table `first` together with `acceptRanges`: for the first byte of a multi-byte
encoding, its size and the range of the second byte; `none` for ASCII and invalid bytes. -/
def first (s0 : Nat) : Option (Nat × Nat × Nat) :=
  if 0xC2 ≤ s0 && s0 ≤ 0xDF then some (2, 0x80, 0xBF)
  else if s0 == 0xE0 then some (3, 0xA0, 0xBF)
  else if 0xE1 ≤ s0 && s0 ≤ 0xEC then some (3, 0x80, 0xBF)
  else if s0 == 0xED then some (3, 0x80, 0x9F)
  else if 0xEE ≤ s0 && s0 ≤ 0xEF then some (3, 0x80, 0xBF)
  else if s0 == 0xF0 then some (4, 0x90, 0xBF)
  else if 0xF1 ≤ s0 && s0 ≤ 0xF3 then some (4, 0x80, 0xBF)
  else if s0 == 0xF4 then some (4, 0x80, 0x8F)
  else none

/-- A continuation byte: between `locb` and `hicb`. -/
def isCont (b : Nat) : Bool := 0x80 ≤ b && b ≤ 0xBF

/-- `utf8.DecodeRuneInString`: the first rune of `s` and its width in bytes. -/
def DecodeRuneInString (s : Bytes) : Nat × Nat :=
  match s with
  | [] => (RuneError, 0)
  | s0 :: rest =>
    match first s0.toNat with
    | none => if s0.toNat < 0x80 then (s0.toNat, 1) else (RuneError, 1)
    | some (sz, lo, hi) =>
      if s.length < sz then (RuneError, 1)
      else
        let s1 := (rest.getD 0 0).toNat
        let s2 := (rest.getD 1 0).toNat
        let s3 := (rest.getD 2 0).toNat
        if s1 < lo || hi < s1 then (RuneError, 1)
        else if sz ≤ 2 then ((s0.toNat &&& 0x1F) <<< 6 ||| (s1 &&& 0x3F), 2)
        else if !isCont s2 then (RuneError, 1)
        else if sz ≤ 3 then
          ((s0.toNat &&& 0x0F) <<< 12 ||| (s1 &&& 0x3F) <<< 6 ||| (s2 &&& 0x3F), 3)
        else if !isCont s3 then (RuneError, 1)
        else
          ((s0.toNat &&& 0x07) <<< 18 ||| (s1 &&& 0x3F) <<< 12 ||| (s2 &&& 0x3F) <<< 6
            ||| (s3 &&& 0x3F), 4)

end Utf8

namespace Json

/-- The digits `hex` of the encoder. -/
def hex : Bytes := str "0123456789abcdef"

/-- The table `htmlSafeSet`: the ASCII characters written without escaping, which are those from
the space on, except the double quote, the backslash and `<`, `>`, `&`. -/
def htmlSafeSet (b : UInt8) : Bool :=
  0x20 ≤ b.toNat && b.toNat < 0x80 && b != 34 && b != 92 && b != 60 && b != 62 && b != 38

/-- The loop of `encodeState.string` with `escapeHTML` set, over the bytes not yet written. -/
def stringBody : Nat → Bytes → Bytes
  | 0, _ => []
  | _ + 1, [] => []
  | fuel + 1, b :: rest =>
    if b.toNat < 0x80 then
      if htmlSafeSet b then b :: stringBody fuel rest
      else if b == 92 || b == 34 then 92 :: b :: stringBody fuel rest
      else if b == 10 then 92 :: 110 :: stringBody fuel rest
      else if b == 13 then 92 :: 114 :: stringBody fuel rest
      else if b == 9 then 92 :: 116 :: stringBody fuel rest
      else
        str "\\u00" ++ [hex.getD (b.toNat >>> 4) 0, hex.getD (b.toNat &&& 0xF) 0]
          ++ stringBody fuel rest
    else
      let c := (Utf8.DecodeRuneInString (b :: rest)).1
      let size := (Utf8.DecodeRuneInString (b :: rest)).2
      if c == Utf8.RuneError && size == 1 then str "\\ufffd" ++ stringBody fuel rest
      else if c == 0x2028 || c == 0x2029 then
        str "\\u202" ++ [hex.getD (c &&& 0xF) 0] ++ stringBody fuel (rest.drop (size - 1))
      else (b :: rest).take size ++ stringBody fuel (rest.drop (size - 1))

/-- `encodeState.string(s, true)`: the JSON string literal of a Go string. -/
def encodeString (s : Bytes) : Bytes := 34 :: (stringBody (s.length + 1) s ++ [34])

/-- The `structEncoder` for a struct whose fields are all strings: `fields` lists the exported
fields in declaration order, by name and value; `first` tells whether none was written yet. -/
def structFields : Bool → List (Bytes × Bytes) → Bytes
  | _, [] => []
  | first, (name, value) :: rest =>
    (if first then [] else [44]) ++ [34] ++ name ++ [34, 58] ++ encodeString value
      ++ structFields false rest

/-- `json.Marshal` of a struct of string fields; it returns no error for such a value. -/
def marshalStruct (fields : List (Bytes × Bytes)) : Bytes :=
  [123] ++ structFields true fields ++ [125]

end Json

/-! ## The environment of a run: files, arguments, environment variables, ECDSA -/

/-- What reading an open file to its end yields: the successive chunks read and, after them,
the end of the file (`none`) or a read error. -/
structure File where
  chunks : List Bytes
  err : Option Error
deriving DecidableEq, Repr

/-- The whole contents of a file. -/
def File.contents (f : File) : Bytes := f.chunks.foldr (fun c acc => c ++ acc) []

/-- What a path names in the file system. -/
inductive Entry
  /-- No file: `os.Open` fails. -/
  | missing (err : Error)
  /-- An existing file that `os.Open` cannot open, for want of permission for instance. -/
  | denied (err : Error)
  /-- An existing file that `os.Open` opens; reading it yields `f`. -/
  | openable (f : File)
deriving DecidableEq, Repr

/-- The path names an existing file. -/
def Entry.present : Entry → Bool
  | .missing _ => false
  | .denied _ => true
  | .openable _ => true

/-- The operating system as a program run sees it. -/
structure OS where
  /-- `os.Args`, the program name first. -/
  Args : List Bytes
  /-- The file system. -/
  Lookup : Bytes → Entry
  /-- `os.Getenv`. -/
  Getenv : Bytes → Bytes

/-- `os.Open`. -/
def OS.Open (os : OS) (name : Bytes) : Except Error File :=
  match os.Lookup name with
  | .missing err => .error err
  | .denied err => .error err
  | .openable f => .ok f

/-- `io.Copy(dst, src)` into a hasher: every chunk read is written to `dst`; the result is the
read error, if any (writing to a hasher does not fail). -/
def ioCopy (dst : Sha256.Hasher) (src : File) : Sha256.Hasher × Option Error :=
  (src.chunks.foldl (fun h p => h.Write p) dst, src.err)

/-- `ioutil.ReadFile`. -/
def ReadFile (os : OS) (filename : Bytes) : Except Error Bytes :=
  match os.Open filename with
  | .error e => .error e
  | .ok f =>
    match f.err with
    | some e => .error e
    | none => .ok f.contents

/-- The functions of `crypto/ecdsa` the programs call, with the state of `rand.Reader` passed
explicitly. -/
structure Crypto where
  /-- The state of the random source `rand.Reader`. -/
  Rand : Type
  /-- `ecdsa.GenerateKey(curve, rand.Reader)`. -/
  GenerateKey : Curve → Rand → Except Error (Ecdsa.PrivateKey × Rand)
  /-- `ecdsa.SignASN1(rand.Reader, priv, hash)`. -/
  SignASN1 : Rand → Ecdsa.PrivateKey → Bytes → Except Error (Bytes × Rand)
  /-- `ecdsa.VerifyASN1(pub, hash, sig)`. -/
  VerifyASN1 : Ecdsa.PublicKey → Bytes → Bytes → Bool

/-- How a run ends. -/
inductive Exit
  /-- The function `main` returns. -/
  | returned
  /-- `os.Exit(code)`. -/
  | exit (code : Nat)
  /-- `log.Fatal`: the message is logged and the process exits with status 1. -/
  | logFatal (msg : Bytes)
  /-- `log.Panic`, `log.Panicf`: the message is logged and the goroutine panics with it. -/
  | logPanic (msg : Bytes)
  /-- A panic raised by the Go run time. -/
  | runtimePanic (msg : String)
deriving DecidableEq, Repr

/-- The exit status of the process. -/
def Exit.status : Exit → Nat
  | .returned => 0
  | .exit code => code
  | .logFatal _ => 1
  | .logPanic _ => 2
  | .runtimePanic _ => 2

/-- A run of a program: what it wrote to standard output, one entry per call of `fmt.Printf`
or `fmt.Println`, and how it ended. -/
structure Run where
  stdout : List Bytes
  exit : Exit
deriving DecidableEq, Repr

/-! ## `main.go`: the minimal signer -/

namespace Minimal

/-- The function `main` of `main.go`. -/
def main (C : Crypto) (os : OS) (rand : C.Rand) : Run :=
  match os.Args with
  | _ :: filepath :: _ =>
    match C.GenerateKey .P256 rand with
    | .error err => ⟨[], .logFatal (str err.msg)⟩
    | .ok (priv, rand1) =>
      let pub := priv.PublicKey
      match X509.MarshalPKIXPublicKey pub with
      | .error err => ⟨[], .logFatal (str err.msg)⟩
      | .ok pubBytes =>
        let pubPem := Pem.EncodeToMemory { type := str "PUBLIC KEY", headers := [], bytes := pubBytes }
        let outPem := Base64.EncodeToString pubPem
        let out1 := [str "::set-output name=publickey::" ++ outPem ++ str "\n"]
        match ReadFile os filepath with
        | .error err => ⟨out1, .logFatal (str err.msg)⟩
        | .ok b =>
          let h := Sha256.New
          let h := h.Write b
          let hash := h.Sum
          match C.SignASN1 rand1 priv hash with
          | .error err => ⟨out1, .logFatal (str err.msg)⟩
          | .ok (sig1Bytes, _) =>
            let sig1 := Base64.EncodeToString sig1Bytes
            ⟨out1 ++ [str "::set-output name=signature::" ++ sig1 ++ str "\n"], .returned⟩
  | _ => ⟨[], .runtimePanic "index out of range"⟩

end Minimal

/-! ## `action/main.go`: the signer with the environment envelope -/

namespace Action

/-- The struct `envelope`. -/
structure envelope where
  RunUrl : Bytes
  GitHubSha : Bytes
  ArtifactSha : Bytes
  VerifierSha : Bytes
deriving DecidableEq, Repr

/-- The exported fields of `envelope` in declaration order, as `json.Marshal` finds them. -/
def envelope.fields (e : envelope) : List (Bytes × Bytes) :=
  [(str "RunUrl", e.RunUrl), (str "GitHubSha", e.GitHubSha), (str "ArtifactSha", e.ArtifactSha),
    (str "VerifierSha", e.VerifierSha)]

/-- `json.Marshal(env)`. -/
def envelope.Marshal (e : envelope) : Bytes := Json.marshalStruct e.fields

/-- The function `logOutput`: the two lines it prints. -/
def logOutput (key val : Bytes) : List Bytes :=
  [str "::set-output name=" ++ key ++ str "::" ++ val ++ str "\n", key ++ str "=" ++ val ++ str "\n"]

/-- The function `sign`: the base64 signature of the SHA-256 digest of `b` and the digest in
hexadecimal, or the fatal exit when signing fails. -/
def sign (C : Crypto) (rand : C.Rand) (b : Bytes) (p : Ecdsa.PrivateKey) :
    Except Exit ((Bytes × Bytes) × C.Rand) :=
  let h := Sha256.New
  let h := h.Write b
  let hash := h.Sum
  match C.SignASN1 rand p hash with
  | .error err => .error (.logFatal (str err.msg))
  | .ok (sig, rand1) => .ok ((Base64.EncodeToString sig, Hex.EncodeToString hash), rand1)

/-- The function `runUrl`. -/
def runUrl (os : OS) : Bytes :=
  let g := os.Getenv
  g (str "GITHUB_SERVER_URL") ++ str "/" ++ g (str "GITHUB_REPOSITORY") ++ str "/actions/runs/"
    ++ g (str "GITHUB_RUN_ID")

/-- The function `logVerifierInfo`: the lines it prints, and the hash of the running binary in
hexadecimal or the fatal exit. -/
def logVerifierInfo (os : OS) (p : Bytes) : List Bytes × Except Exit Bytes :=
  let out0 := [str "Starting verifier with:  " ++ p ++ str "\n"]
  match os.Args with
  | [] => (out0, .error (.runtimePanic "index out of range"))
  | self :: _ =>
    match os.Open self with
    | .error err => (out0, .error (.logFatal (str err.msg)))
    | .ok f =>
      let h := Sha256.New
      match ioCopy h f with
      | (_, some err) => (out0, .error (.logFatal (str err.msg)))
      | (h1, none) =>
        let hash := Hex.EncodeToString h1.Sum
        (out0 ++ [str "Self hash:  " ++ hash ++ str "\n"], .ok hash)

/-- The function `main` of `action/main.go`. -/
def main (C : Crypto) (os : OS) (rand : C.Rand) : Run :=
  if os.Args.length != 2 then ⟨[], .logFatal (str "Usage: verifyme <filepath>")⟩
  else
    let fp := os.Args.getD 1 []
    match logVerifierInfo os fp with
    | (out0, .error x) => ⟨out0, x⟩
    | (out0, .ok selfHash) =>
      match C.GenerateKey .P256 rand with
      | .error err => ⟨out0, .logFatal (str err.msg)⟩
      | .ok (priv, rand1) =>
        match X509.MarshalPKIXPublicKey priv.PublicKey with
        | .error err => ⟨out0, .logFatal (str err.msg)⟩
        | .ok pubBytes =>
          let pubPem :=
            Pem.EncodeToMemory { type := str "PUBLIC KEY", headers := [], bytes := pubBytes }
          let outPem := Base64.EncodeToString pubPem
          let out1 := out0 ++ logOutput (str "publickey") outPem
          match ReadFile os fp with
          | .error err => ⟨out1, .logFatal (str err.msg)⟩
          | .ok message =>
            match sign C rand1 message priv with
            | .error x => ⟨out1, x⟩
            | .ok ((messageSig, hash), rand2) =>
              let out2 := out1 ++ logOutput (str "signature") messageSig
                ++ logOutput (str "sha256") hash
              let env : envelope :=
                { RunUrl := runUrl os, GitHubSha := os.Getenv (str "GITHUB_SHA"),
                  ArtifactSha := hash, VerifierSha := selfHash }
              let envBytes := env.Marshal
              let envStr := Base64.EncodeToString envBytes
              match sign C rand2 envStr priv with
              | .error x => ⟨out2, x⟩
              | .ok ((envSig, _), _) =>
                ⟨out2 ++ logOutput (str "environment") envStr
                  ++ logOutput (str "environment_signature") envSig, .returned⟩

end Action

/-! ## `verifier/main.go`: the verifier -/

namespace Verifier

/-- The function `mustDecode`: the bytes of a base64 string, or the panic of `log.Panic(err)`.
The offset that the message of a `CorruptInputError` carries is left out. -/
def mustDecode (s : Bytes) : Except Exit Bytes :=
  match Base64.DecodeString s with
  | .error _ => .error (.logPanic (str "illegal base64 data at input byte"))
  | .ok b => .ok b

/-- The lines 26 to 38 of `main`: the public key of the decoded argument `pub`.  The block that
`pem.Decode` returns is used without a test for `nil`; reading `pem.Type` of a `nil` block is
a run-time panic. -/
def parseKey (pubBytes : Bytes) : Except Exit Ecdsa.PublicKey :=
  match Pem.Decode pubBytes with
  | none => .error (.runtimePanic "invalid memory address or nil pointer dereference")
  | some (pem, _) =>
    if pem.type != str "PUBLIC KEY" then
      .error (.logPanic (str "unsupported public key type: " ++ pem.type))
    else
      match X509.ParsePKIXPublicKey pem.bytes with
      | .error err => .error (.logPanic (str err.msg))
      | .ok key =>
        match key with
        | .ecdsa pubKey => .ok pubKey
        | _ => .error (.logPanic (str "unsupported public key format: %!s(<nil>)"))

/-- The lines 40 to 51 of `main`: the SHA-256 digest of the message, which is the contents of
the file that `message` names when `os.Open` succeeds and the bytes of `message` otherwise. -/
def hashMessage (os : OS) (message : Bytes) : Except Exit Bytes :=
  let hasher := Sha256.New
  match os.Open message with
  | .ok f =>
    match ioCopy hasher f with
    | (_, some err) =>
      .error (.logPanic (str "unable to decode or read message: " ++ str err.msg))
    | (hasher1, none) => .ok hasher1.Sum
  | .error _ => .ok (hasher.Write message).Sum

/-- The function `main` of `verifier/main.go`. -/
def main (C : Crypto) (os : OS) : Run :=
  match os.Args with
  | [_, sig, pub, message] =>
    match mustDecode sig with
    | .error x => ⟨[], x⟩
    | .ok sigBytes =>
      match mustDecode pub with
      | .error x => ⟨[], x⟩
      | .ok pubBytes =>
        match parseKey pubBytes with
        | .error x => ⟨[], x⟩
        | .ok pubKey =>
          match hashMessage os message with
          | .error x => ⟨[], x⟩
          | .ok hash =>
            if !C.VerifyASN1 pubKey hash sigBytes then ⟨[], .logFatal (str "invalid signature")⟩
            else ⟨[str "valid signature\n"], .returned⟩
  | _ =>
    ⟨[str "USAGE: verifier <signature> <public-key> <message>\n",
      str "artifact and signature should be base64 encoded strings\n",
      str "message should be a filepath or a base64 encoded message\n"], .exit 1⟩

end Verifier

/-! ## The contract of `crypto/ecdsa`, message resolution, and example inputs -/

/-- What the programs rely on from `crypto/ecdsa`: a generated key is a point of the requested
curve with coordinates in range, and a signature made with a generated key over a digest is
accepted under the public half of that key for that digest. -/
structure Crypto.Sound (C : Crypto) : Prop where
  key_valid : ∀ (c : Curve) (rand : C.Rand) (priv : Ecdsa.PrivateKey) (rand1 : C.Rand),
    C.GenerateKey c rand = .ok (priv, rand1) →
      priv.PublicKey.Curve = c ∧ priv.PublicKey.X < c.P ∧ priv.PublicKey.Y < c.P
        ∧ c.IsOnCurve priv.PublicKey.X priv.PublicKey.Y = true
  sign_verify : ∀ (c : Curve) (rand0 : C.Rand) (priv : Ecdsa.PrivateKey) (rand1 : C.Rand),
    C.GenerateKey c rand0 = .ok (priv, rand1) →
      ∀ (rand : C.Rand) (hash sig : Bytes) (rand2 : C.Rand),
        C.SignASN1 rand priv hash = .ok (sig, rand2) →
          C.VerifyASN1 priv.PublicKey hash sig = true

/-- The message argument `message` of the verifier stands for the bytes `b`: it names a file
that opens and reads to its end with contents `b`, or it names no file that opens and its own
bytes are `b`. -/
def Verifier.resolves (os : OS) (message b : Bytes) : Prop :=
  (∃ f, os.Lookup message = .openable f ∧ f.err = none ∧ f.contents = b)
    ∨ ((∀ f, os.Lookup message ≠ .openable f) ∧ message = b)

/-- Every decoding step of the verifier succeeds on the arguments: the signature decodes to
`sigBytes`, the public key decodes to a PEM block of type `PUBLIC KEY` that parses to the ECDSA
key `key`, and the message resolves to the digest `hash`. -/
def Verifier.wellFormed (os : OS) (sig pub message sigBytes : Bytes) (key : Ecdsa.PublicKey)
    (hash : Bytes) : Prop :=
  Base64.DecodeString sig = .ok sigBytes ∧
  (∃ pubBytes p rest, Base64.DecodeString pub = .ok pubBytes ∧ Pem.Decode pubBytes = some (p, rest)
    ∧ p.type = str "PUBLIC KEY" ∧ X509.ParsePKIXPublicKey p.bytes = .ok (.ecdsa key)) ∧
  Verifier.hashMessage os message = .ok hash

/-- The run of the verifier that accepts: the success message, and `main` returns. -/
def Verifier.accept : Run := ⟨[str "valid signature\n"], .returned⟩

/-- The run of the verifier that rejects: `log.Fatal("invalid signature")`. -/
def Verifier.reject : Run := ⟨[], .logFatal (str "invalid signature")⟩

/-- A run that ends in a panic. -/
def Run.aborted (r : Run) : Prop :=
  (∃ msg, r.exit = .logPanic msg) ∨ (∃ msg, r.exit = .runtimePanic msg)

/-- The lines that `logOutput` prints for a list of outputs, in order. -/
def Action.published (outputs : List (Bytes × Bytes)) : List Bytes :=
  outputs.flatMap fun kv => Action.logOutput kv.1 kv.2

/-- The five outputs of the signer in the order in which it publishes them. -/
def Action.outputs (publickey signature sha256 environment environment_signature : Bytes) :
    List (Bytes × Bytes) :=
  [(str "publickey", publickey), (str "signature", signature), (str "sha256", sha256),
    (str "environment", environment), (str "environment_signature", environment_signature)]

namespace Example

/-- The base point of P-256, the public key of the private key 1. -/
def basePoint : Ecdsa.PublicKey :=
  { Curve := .P256,
    X := 0x6b17d1f2e12c4247f8bce6e563a440f277037d812deb33a0f4a13945d898c296,
    Y := 0x4fe342e2fe1a7f9b8ee7eb4a7c0f9e162bce33576b315ececbb6406837bf51f5 }

/-- The private key 1 of P-256. -/
def key : Ecdsa.PrivateKey := { PublicKey := basePoint, D := 1 }

/-- A stand-in for `crypto/ecdsa` on which the programs can be run: key generation gives the
key pair of the private key 1 on P-256 and fails on the other curves, a signature is the
digest itself, and verification compares the signature with the digest. -/
def crypto : Crypto :=
  { Rand := Unit
    GenerateKey := fun c rand =>
      if c = .P256 then .ok (key, rand) else .error ⟨"unsupported curve"⟩
    SignASN1 := fun rand _ hash => .ok (hash, rand)
    VerifyASN1 := fun _ hash sig => sig == hash }

/-- A stand-in for `crypto/ecdsa` whose signing fails. -/
def cryptoNoSign : Crypto :=
  { Rand := Unit
    GenerateKey := fun c rand =>
      if c = .P256 then .ok (key, rand) else .error ⟨"unsupported curve"⟩
    SignASN1 := fun _ _ _ => .error ⟨"entropy source failed"⟩
    VerifyASN1 := fun _ hash sig => sig == hash }

/-- The base point of P-384. -/
def basePoint384 : Ecdsa.PublicKey :=
  { Curve := .P384,
    X := 0xaa87ca22be8b05378eb1c71ef320ad746e1d3b628ba79b9859f741e082542a385502f25dbf55296c3a545e3872760ab7,
    Y := 0x3617de4a96262c6f5d9e98bf9292dc29f8f41dbd289a147ce9da3113b5f0b8c00a60b1ce1d7e819d7a431d7c90ea0e5f }

/-- The public-key argument for the base point of P-384: the base64 text of the PEM block of
its PKIX encoding. -/
def p384Text : Bytes :=
  str "LS0tLS1CRUdJTiBQVUJMSUMgS0VZLS0tLS0KTUhZd0VBWUhLb1pJemowQ0FRWUZLNEVFQUNJRFlnQUVxb2ZLSXI2TEJUZU9zY2NlOHlDdGRHNGRPMktMcDV1WQpXZmRCNElKVUtqaFZBdkpkdjFVcGJEcFVYamh5ZGdxM05oZmVTcFltTEc5ZG5waS9rcExjS2ZqMEhiMG9taFI4CjZkb3hFN1h3dU1BS1lMSE9IWDZCblhwREhYeVE2ZzVmCi0tLS0tRU5EIFBVQkxJQyBLRVktLS0tLQo="

/-- The public-key argument for an Ed25519 key. -/
def ed25519Text : Bytes :=
  str "LS0tLS1CRUdJTiBQVUJMSUMgS0VZLS0tLS0KTUNvd0JRWURLMlZ3QXlFQUdzdzVuelVhZmYzeFFhZC9UeFkyRE1lYW1xOWQ4bjRKQnZpTWd1bTZjVEE9Ci0tLS0tRU5EIFBVQkxJQyBLRVktLS0tLQo="

/-- The public-key argument for the base point of P-256. -/
def p256Text : Bytes :=
  str "LS0tLS1CRUdJTiBQVUJMSUMgS0VZLS0tLS0KTUZrd0V3WUhLb1pJemowQ0FRWUlLb1pJemowREFRY0RRZ0FFYXhmUjh1RXNRa2Y0dk9ibFk2UkE4bmNEZllFdAo2ek9nOUtFNVJkaVl3cFpQNDBMaS9ocC9tNDduNjBwOEQ1NFdLODR6VjJzeFhzN0x0a0JvTjc5UjlRPT0KLS0tLS1FTkQgUFVCTElDIEtFWS0tLS0tCg=="

/-- The PEM block that `p256Text` encodes. -/
def p256Pem : Bytes :=
  str "-----BEGIN PUBLIC KEY-----\nMFkwEwYHKoZIzj0CAQYIKoZIzj0DAQcDQgAEaxfR8uEsQkf4vOblY6RA8ncDfYEt\n6zOg9KE5RdiYwpZP40Li/hp/m47n60p8D54WK84zV2sxXs7LtkBoN79R9Q==\n-----END PUBLIC KEY-----\n"

/-- The PEM block that `ed25519Text` encodes. -/
def ed25519Pem : Bytes :=
  str "-----BEGIN PUBLIC KEY-----\nMCowBQYDK2VwAyEAGsw5nzUaff3xQad/TxY2DMeamq9d8n4JBviMgum6cTA=\n-----END PUBLIC KEY-----\n"

/-- The PKIX encoding in `ed25519Pem`. -/
def ed25519Der : Bytes :=
  [48, 42, 48, 5, 6, 3, 43, 101, 112, 3, 33, 0, 26, 204, 57, 159, 53, 26, 125, 253, 241, 65, 167,
    127, 79, 22, 54, 12, 199, 154, 154, 175, 93, 242, 126, 9, 6, 248, 140, 130, 233, 186, 113, 48]

/-- A file system without files. -/
def noFiles : Bytes → Entry := fun _ => .missing ⟨"no such file or directory"⟩

/-- A file system whose only file is `secret`, which exists and cannot be opened. -/
def deniedFile : Bytes → Entry := fun name =>
  if name = str "secret" then .denied ⟨"permission denied"⟩
  else .missing ⟨"no such file or directory"⟩

/-- A file system whose only entry is the directory `dir`: it opens, and reading it fails. -/
def directory : Bytes → Entry := fun name =>
  if name = str "dir" then .openable { chunks := [], err := some ⟨"is a directory"⟩ }
  else .missing ⟨"no such file or directory"⟩

/-- A file system whose only file is `broken`: it opens, a first read gives `par`, and the next
read fails. -/
def brokenFile : Bytes → Entry := fun name =>
  if name = str "broken" then
    .openable { chunks := [str "par"], err := some ⟨"input/output error"⟩ }
  else .missing ⟨"no such file or directory"⟩

/-- A file system with the signer's binary `verifyme` and the artifact `artifact.txt`, which
holds `hello`, read in two chunks. -/
def withArtifact : Bytes → Entry := fun name =>
  if name = str "verifyme" then .openable { chunks := [str "binary"], err := none }
  else if name = str "artifact.txt" then .openable { chunks := [str "hel", str "lo"], err := none }
  else .missing ⟨"no such file or directory"⟩

/-- A file system with the signer's binary `verifyme` and no artifact. -/
def withoutArtifact : Bytes → Entry := fun name =>
  if name = str "verifyme" then .openable { chunks := [str "binary"], err := none }
  else .missing ⟨"no such file or directory"⟩

/-- An environment without variables. -/
def noEnv : Bytes → Bytes := fun _ => []

end Example

/-! # Proofs

## encoding/base64: decoding inverts encoding, and ignores line breaks -/

namespace Base64

theorem toNat_lt (b : UInt8) : b.toNat < 256 := b.toBitVec.isLt

theorem ofNat_toNat (b : UInt8) : UInt8.ofNat b.toNat = b := by
  apply UInt8.eq_of_val_eq
  apply Fin.ext
  simp [UInt8.ofNat, UInt8.toNat, UInt8.val, Fin.ofNat]

theorem ofNat_eq (n : Nat) (b : UInt8) (h : n % 256 = b.toNat) : UInt8.ofNat n = b := by
  rw [← ofNat_toNat b, ← h]
  apply UInt8.eq_of_val_eq
  apply Fin.ext
  simp [UInt8.ofNat, UInt8.toNat, UInt8.val, Fin.ofNat]

theorem decodeMap_encodeChar (v : Nat) (h : v < 64) : decodeMap (encodeChar v) = some v := by
  have : ∀ w : Fin 64, decodeMap (encodeChar w.val) = some w.val := by decide
  exact this ⟨v, h⟩

theorem or_shift (a b k : Nat) (hb : b < 2 ^ k) : a <<< k ||| b = a * 2 ^ k + b := by
  rw [Nat.shiftLeft_eq, Nat.mul_comm, Nat.mul_add_lt_is_or hb]

theorem pack3 (a b c : Nat) (hb : b < 256) (hc : c < 256) :
    a <<< 16 ||| b <<< 8 ||| c = a * 65536 + b * 256 + c := by
  have e : a <<< 16 ||| b <<< 8 = (a * 256 + b) <<< 8 := by
    rw [or_shift a (b <<< 8) 16 (by rw [Nat.shiftLeft_eq]; omega), Nat.shiftLeft_eq,
      Nat.shiftLeft_eq]
    omega
  rw [e, or_shift _ c 8 (by omega)]
  omega

theorem pack4 (a b c d : Nat) (hb : b < 64) (hc : c < 64) (hd : d < 64) :
    a <<< 18 ||| b <<< 12 ||| c <<< 6 ||| d = a * 262144 + b * 4096 + c * 64 + d := by
  have e1 : a <<< 18 ||| b <<< 12 = (a * 64 + b) <<< 12 := by
    rw [or_shift a (b <<< 12) 18 (by rw [Nat.shiftLeft_eq]; omega), Nat.shiftLeft_eq,
      Nat.shiftLeft_eq]
    omega
  have e2 : (a * 64 + b) <<< 12 ||| c <<< 6 = ((a * 64 + b) * 64 + c) <<< 6 := by
    rw [or_shift _ (c <<< 6) 12 (by rw [Nat.shiftLeft_eq]; omega), Nat.shiftLeft_eq,
      Nat.shiftLeft_eq]
    omega
  rw [e1, e2, or_shift _ d 6 (by omega)]
  omega

theorem sextet (v k : Nat) : v >>> k &&& 0x3F = v >>> k % 64 :=
  Nat.and_pow_two_sub_one_eq_mod _ 6

theorem sextet0 (v : Nat) : v &&& 0x3F = v % 64 := Nat.and_pow_two_sub_one_eq_mod _ 6

theorem quantum_three (a b c : UInt8) :
    let v := a.toNat * 65536 + b.toNat * 256 + c.toNat
    quantum (v >>> 18 % 64) (v >>> 12 % 64) (v >>> 6 % 64) (v % 64) 4 = [a, b, c] := by
  intro v
  simp only [Nat.shiftRight_eq_div_pow]
  have ha := toNat_lt a
  have hb := toNat_lt b
  have hc := toNat_lt c
  unfold quantum
  rw [pack4 _ _ _ _ (Nat.mod_lt _ (by decide)) (Nat.mod_lt _ (by decide))
    (Nat.mod_lt _ (by decide))]
  simp only [Nat.shiftRight_eq_div_pow]
  rw [ofNat_eq _ a (by omega), ofNat_eq _ b (by omega), ofNat_eq _ c (by omega)]
  rfl

theorem quantum_two (a b : UInt8) :
    let v := a.toNat * 65536 + b.toNat * 256
    quantum (v >>> 18 % 64) (v >>> 12 % 64) (v >>> 6 % 64) 0 3 = [a, b] := by
  intro v
  simp only [Nat.shiftRight_eq_div_pow]
  have ha := toNat_lt a
  have hb := toNat_lt b
  unfold quantum
  rw [pack4 _ _ _ _ (Nat.mod_lt _ (by decide)) (Nat.mod_lt _ (by decide)) (by decide)]
  simp only [Nat.shiftRight_eq_div_pow]
  rw [ofNat_eq _ a (by omega), ofNat_eq _ b (by omega)]
  rfl

theorem quantum_one (a : UInt8) :
    let v := a.toNat * 65536
    quantum (v >>> 18 % 64) (v >>> 12 % 64) 0 0 2 = [a] := by
  intro v
  simp only [Nat.shiftRight_eq_div_pow]
  have ha := toNat_lt a
  unfold quantum
  rw [pack4 _ _ _ _ (Nat.mod_lt _ (by decide)) (by decide) (by decide)]
  simp only [Nat.shiftRight_eq_div_pow]
  rw [ofNat_eq _ a (by omega)]
  rfl

theorem decodeMap_padChar : decodeMap padChar = none := by decide

theorem isNewline_padChar : isNewline padChar = false := by decide

theorem decodeLoop_group (d0 d1 d2 d3 : Nat) (h0 : d0 < 64) (h1 : d1 < 64) (h2 : d2 < 64)
    (h3 : d3 < 64) (rest : Bytes) :
    decodeLoop (encodeChar d0 :: encodeChar d1 :: encodeChar d2 :: encodeChar d3 :: rest) [] =
      prepend (quantum d0 d1 d2 d3 4) (decodeLoop rest []) := by
  simp [decodeLoop, decodeMap_encodeChar, h0, h1, h2, h3]

theorem decodeLoop_pad1 (d0 d1 d2 : Nat) (h0 : d0 < 64) (h1 : d1 < 64) (h2 : d2 < 64) :
    decodeLoop [encodeChar d0, encodeChar d1, encodeChar d2, padChar] [] =
      .ok (quantum d0 d1 d2 0 3) := by
  simp [decodeLoop, decodeMap_encodeChar, h0, h1, h2, decodeMap_padChar, isNewline_padChar,
    skipNewlines, decodePadding]

theorem decodeLoop_pad2 (d0 d1 : Nat) (h0 : d0 < 64) (h1 : d1 < 64) :
    decodeLoop [encodeChar d0, encodeChar d1, padChar, padChar] [] =
      .ok (quantum d0 d1 0 0 2) := by
  simp [decodeLoop, decodeMap_encodeChar, h0, h1, decodeMap_padChar, isNewline_padChar,
    skipNewlines, decodePadding]


/-- Decoding inverts encoding. -/
theorem DecodeString_EncodeToString (b : Bytes) :
    DecodeString (EncodeToString b) = .ok b := by
  unfold DecodeString
  induction b using EncodeToString.induct with
  | case1 a b c rest ih =>
    have hb := toNat_lt b
    have hc := toNat_lt c
    rw [EncodeToString]
    simp only [sextet, sextet0]
    rw [decodeLoop_group _ _ _ _ (Nat.mod_lt _ (by decide)) (Nat.mod_lt _ (by decide))
      (Nat.mod_lt _ (by decide)) (Nat.mod_lt _ (by decide)), ih]
    simp only [pack3 _ _ _ hb hc]
    have := quantum_three a b c
    simp only at this
    simp only [this, prepend]
    rfl
  | case2 a b =>
    have hb := toNat_lt b
    rw [EncodeToString]
    simp only [sextet]
    rw [decodeLoop_pad1 _ _ _ (Nat.mod_lt _ (by decide)) (Nat.mod_lt _ (by decide))
      (Nat.mod_lt _ (by decide))]
    have e : a.toNat <<< 16 ||| b.toNat <<< 8 = a.toNat * 65536 + b.toNat * 256 := by
      have := pack3 a.toNat b.toNat 0 hb (by decide)
      simpa using this
    simp only [e]
    have := quantum_two a b
    simp only at this
    simp only [this]
  | case3 a =>
    rw [EncodeToString]
    simp only [sextet]
    rw [decodeLoop_pad2 _ _ (Nat.mod_lt _ (by decide)) (Nat.mod_lt _ (by decide))]
    have e : a.toNat <<< 16 = a.toNat * 65536 := by rw [Nat.shiftLeft_eq]
    simp only [e]
    have := quantum_one a
    simp only at this
    simp only [this]
  | case4 => rfl

theorem decodeMap_newline (c : UInt8) (h : isNewline c = true) : decodeMap c = none := by
  have h1 : c = 10 ∨ c = 13 := by
    simpa [isNewline] using h
  rcases h1 with rfl | rfl <;> decide

theorem skipNewlines_filter (s : Bytes) :
    (skipNewlines s).filter (fun c => !isNewline c) = s.filter (fun c => !isNewline c) := by
  induction s with
  | nil => rfl
  | cons c s ih =>
    unfold skipNewlines
    by_cases h : isNewline c = true
    · simp [h, ih]
    · simp [h]

theorem skipNewlines_of_filter (s : Bytes) :
    skipNewlines (s.filter (fun c => !isNewline c)) = s.filter (fun c => !isNewline c) := by
  induction s with
  | nil => rfl
  | cons c s ih =>
    by_cases h : isNewline c = true
    · simp [h, ih]
    · simp [h, skipNewlines]

theorem skipNewlines_head (s : Bytes) (c : UInt8) (r : Bytes) (h : skipNewlines s = c :: r) :
    isNewline c = false := by
  induction s with
  | nil => simp [skipNewlines] at h
  | cons x s ih =>
    unfold skipNewlines at h
    by_cases hx : isNewline x = true
    · simp [hx] at h
      exact ih h
    · simp [hx] at h
      rw [← h.1]
      simpa using hx

theorem skipNewlines_isEmpty (s : Bytes) :
    (skipNewlines s).isEmpty = (s.filter (fun c => !isNewline c)).isEmpty := by
  induction s with
  | nil => rfl
  | cons c s ih =>
    unfold skipNewlines
    by_cases h : isNewline c = true
    · simp [h, ih]
    · simp [h]

theorem decodePadding_filter (dbuf : List Nat) (s : Bytes) :
    decodePadding dbuf (s.filter (fun c => !isNewline c)) = decodePadding dbuf s := by
  unfold decodePadding
  split
  · rw [skipNewlines_of_filter]
    cases hs : skipNewlines s with
    | nil =>
      have := skipNewlines_filter s
      rw [hs] at this
      simp only [List.filter_nil] at this
      rw [← this]
    | cons c2 r2 =>
      have hc := skipNewlines_head s c2 r2 hs
      have := skipNewlines_filter s
      rw [hs] at this
      simp only [List.filter_cons, hc, Bool.not_false, ite_true] at this
      rw [← this]
      simp only
      rw [skipNewlines_of_filter, skipNewlines_isEmpty r2]
  · rw [skipNewlines_of_filter, skipNewlines_isEmpty s]
  · rfl

/-- The decoder ignores newlines and carriage returns wherever they stand. -/
theorem decodeLoop_filter (s : Bytes) (dbuf : List Nat) :
    decodeLoop (s.filter (fun c => !isNewline c)) dbuf = decodeLoop s dbuf := by
  induction s generalizing dbuf with
  | nil => rfl
  | cons c s ih =>
    by_cases h : isNewline c = true
    · simp [h, decodeLoop, decodeMap_newline c h, ih]
    · have hf : (c :: s).filter (fun c => !isNewline c) = c :: s.filter (fun c => !isNewline c) := by
        simp [h]
      rw [hf]
      simp only [decodeLoop, ih, decodePadding_filter]

end Base64

/-! ## encoding/pem: `Decode` inverts `EncodeToMemory` on a `PUBLIC KEY` block -/

namespace GoBytes

theorem IndexByte_eq_none (l : Bytes) (c : UInt8) (h : c ∉ l) : IndexByte l c = none := by
  induction l with
  | nil => rfl
  | cons x l ih =>
    have hx : (x == c) = false := by
      simp only [beq_eq_false_iff_ne, ne_eq]
      intro e
      exact h (by simp [e])
    have hl : c ∉ l := fun hm => h (List.mem_cons_of_mem _ hm)
    simp [IndexByte, hx, ih hl]

theorem IndexByte_append (l r : Bytes) (c : UInt8) (h : c ∉ l) :
    IndexByte (l ++ c :: r) c = some l.length := by
  induction l with
  | nil => simp [IndexByte]
  | cons x l ih =>
    have hx : (x == c) = false := by
      simp only [beq_eq_false_iff_ne, ne_eq]
      intro e
      exact h (by simp [e])
    have hl : c ∉ l := fun hm => h (List.mem_cons_of_mem _ hm)
    simp [IndexByte, hx, ih hl]

theorem mem_trimLeftFunc (p : UInt8 → Bool) (l : Bytes) (c : UInt8)
    (h : c ∈ trimLeftFunc p l) : c ∈ l := by
  induction l with
  | nil => simp [trimLeftFunc] at h
  | cons x l ih =>
    unfold trimLeftFunc at h
    split at h
    · exact List.mem_cons_of_mem _ (ih h)
    · exact h

theorem mem_TrimRight (l cutset : Bytes) (c : UInt8) (h : c ∈ TrimRight l cutset) : c ∈ l := by
  unfold TrimRight at h
  rw [List.mem_reverse] at h
  have := mem_trimLeftFunc _ _ _ h
  exact List.mem_reverse.mp this

theorem TrimRight_snoc (l cutset : Bytes) (z : UInt8) (hz : z ∉ cutset) :
    TrimRight (l ++ [z]) cutset = l ++ [z] := by
  unfold TrimRight
  rw [List.reverse_append]
  simp [trimLeftFunc, hz]

end GoBytes
namespace Base64

theorem encodeChar_mem (v : Nat) (h : v < 64) : encodeChar v ∈ encodeStd := by
  have : ∀ w : Fin 64, encodeChar w.val ∈ encodeStd := by decide
  exact this ⟨v, h⟩

/-- Every character of an encoding is in the alphabet or is the padding character. -/
theorem mem_EncodeToString (b : Bytes) :
    ∀ c ∈ EncodeToString b, c ∈ encodeStd ++ [padChar] := by
  induction b using EncodeToString.induct with
  | case1 a b c rest ih =>
    rw [EncodeToString]
    simp only [sextet, sextet0]
    intro x hx
    simp only [List.mem_cons] at hx
    have m := fun v => encodeChar_mem (v % 64) (Nat.mod_lt _ (by decide))
    rcases hx with rfl | rfl | rfl | rfl | hx
    · exact List.mem_append_left _ (m _)
    · exact List.mem_append_left _ (m _)
    · exact List.mem_append_left _ (m _)
    · exact List.mem_append_left _ (m _)
    · exact ih x hx
  | case2 a b =>
    rw [EncodeToString]
    simp only [sextet]
    intro x hx
    simp only [List.mem_cons, List.mem_singleton, List.not_mem_nil, or_false] at hx
    have m := fun v => encodeChar_mem (v % 64) (Nat.mod_lt _ (by decide))
    rcases hx with rfl | rfl | rfl | rfl
    · exact List.mem_append_left _ (m _)
    · exact List.mem_append_left _ (m _)
    · exact List.mem_append_left _ (m _)
    · exact List.mem_append_right _ (List.mem_singleton.mpr rfl)
  | case3 a =>
    rw [EncodeToString]
    simp only [sextet]
    intro x hx
    simp only [List.mem_cons, List.mem_singleton, List.not_mem_nil, or_false] at hx
    have m := fun v => encodeChar_mem (v % 64) (Nat.mod_lt _ (by decide))
    rcases hx with rfl | rfl | rfl | rfl
    · exact List.mem_append_left _ (m _)
    · exact List.mem_append_left _ (m _)
    · exact List.mem_append_right _ (List.mem_singleton.mpr rfl)
    · exact List.mem_append_right _ (List.mem_singleton.mpr rfl)
  | case4 => intro x hx; simp [EncodeToString] at hx

/-- The characters that frame PEM data are not base64 characters: newline, carriage return,
tab, space, hyphen and colon. -/
theorem alphabet_excludes :
    ∀ c ∈ encodeStd ++ [padChar], c ≠ 10 ∧ c ≠ 13 ∧ c ≠ 9 ∧ c ≠ 32 ∧ c ≠ 45 ∧ c ≠ 58 := by
  decide

theorem EncodeToString_eq_nil (b : Bytes) (h : EncodeToString b = []) : b = [] := by
  induction b using EncodeToString.induct with
  | case1 a b c rest ih => rw [EncodeToString] at h; simp at h
  | case2 a b => rw [EncodeToString] at h; simp at h
  | case3 a => rw [EncodeToString] at h; simp at h
  | case4 => rfl

end Base64

namespace Pem

open GoBytes

theorem breakLines_filter (u : Nat) (s : Bytes) :
    (breakLines u s).filter (fun c => !Base64.isNewline c)
      = s.filter (fun c => !Base64.isNewline c) := by
  have h10 : Base64.isNewline 10 = true := by decide
  induction s generalizing u with
  | nil =>
    unfold breakLines
    split
    · simp only [List.filter_cons, h10, Bool.not_true]
      rfl
    · rfl
  | cons c s ih =>
    unfold breakLines
    split
    · simp only [List.filter_cons, h10, Bool.not_true, ih]
      rfl
    · simp only [List.filter_cons, ih]

/-- The broken lines are empty, or end with a newline after characters of the input and
newlines. -/
theorem breakLines_shape (u : Nat) (s : Bytes) :
    breakLines u s = [] ∨
      ∃ b, breakLines u s = b ++ [10] ∧ ∀ c ∈ b, c ∈ s ∨ c = 10 := by
  induction s generalizing u with
  | nil =>
    unfold breakLines
    split
    · right; exact ⟨[], rfl, by simp⟩
    · left; rfl
  | cons c s ih =>
    right
    unfold breakLines
    split
    · rcases ih 0 with h | ⟨b, hb, hm⟩
      · rw [h]
        exact ⟨[c], rfl, by simp⟩
      · rw [hb]
        refine ⟨c :: 10 :: b, rfl, ?_⟩
        intro x hx
        simp only [List.mem_cons] at hx
        rcases hx with rfl | rfl | hx
        · simp
        · simp
        · rcases hm x hx with h | h
          · left; exact List.mem_cons_of_mem _ h
          · right; exact h
    · rcases ih (u + 1) with h | ⟨b, hb, hm⟩
      · exfalso
        cases s with
        | nil => simp [breakLines] at h
        | cons d s => unfold breakLines at h; split at h <;> simp at h
      · rw [hb]
        refine ⟨c :: b, rfl, ?_⟩
        intro x hx
        simp only [List.mem_cons] at hx
        rcases hx with rfl | hx
        · simp
        · rcases hm x hx with h | h
          · left; exact List.mem_cons_of_mem _ h
          · right; exact h

theorem breakLines_zero_eq_nil (s : Bytes) (h : breakLines 0 s = []) : s = [] := by
  cases s with
  | nil => rfl
  | cons c s => unfold breakLines at h; split at h <;> simp at h

end Pem
namespace Pem

open GoBytes

theorem getLine_snoc (l : Bytes) (z : UInt8) (r : Bytes) (hl : (10 : UInt8) ∉ l)
    (hz10 : z ≠ 10) (hz13 : z ≠ 13) (hz32 : z ≠ 32) (hz9 : z ≠ 9) :
    getLine (l ++ [z] ++ 10 :: r) = (l ++ [z], r) := by
  have hmem : (10 : UInt8) ∉ l ++ [z] := by
    simp only [List.mem_append, List.mem_singleton, not_or]
    exact ⟨hl, fun h => hz10 h.symm⟩
  have hcut : z ∉ str " \t" := by
    have e : str " \t" = [32, 9] := by decide
    rw [e]
    simp [hz32, hz9]
  unfold getLine
  rw [IndexByte_append _ _ _ hmem]
  simp only [List.length_append, List.length_singleton, Nat.add_sub_cancel]
  have hget : (l ++ [z] ++ 10 :: r).getD l.length 0 = z := by
    have e : l ++ [z] ++ 10 :: r = l ++ z :: 10 :: r := by simp
    rw [e, List.getD_eq_getElem?_getD, List.getElem?_append_right (Nat.le_refl _)]
    simp
  have h13 : (z == 13) = false := by simpa using hz13
  rw [hget, h13]
  simp only [Bool.and_false, Bool.false_eq_true, ite_false]
  have htake : (l ++ [z] ++ 10 :: r).take (l.length + 1) = l ++ [z] := by
    have : (l ++ [z]).length = l.length + 1 := by simp
    rw [← this, List.take_left']
    rfl
  have hdrop : (l ++ [z] ++ 10 :: r).drop (l.length + 1 + 1) = r := by
    have : (l ++ [z] ++ [10]).length = l.length + 1 + 1 := by simp
    rw [← this]
    have e : l ++ [z] ++ 10 :: r = (l ++ [z] ++ [10]) ++ r := by simp
    rw [e, List.drop_left']
    rfl
  rw [htake, hdrop, TrimRight_snoc _ _ _ hcut]

theorem mem_getLine (d : Bytes) (c : UInt8) (h : c ∈ (getLine d).1) : c ∈ d := by
  unfold getLine at h
  split at h
  · exact mem_TrimRight _ _ _ h
  · exact List.mem_of_mem_take (mem_TrimRight _ _ _ h)

/-- The first instance of the END marker in data without a hyphen before the marker. -/
theorem Index_pemEnd (l r : Bytes) (h : (45 : UInt8) ∉ l) :
    Index (l ++ pemEnd ++ r) pemEnd = some l.length := by
  have e : pemEnd = 10 :: 45 :: str "----END " := by decide
  induction l with
  | nil =>
    have hp : pemEnd.isPrefixOf (pemEnd ++ r) = true := by
      rw [List.isPrefixOf_iff_prefix]
      exact List.prefix_append _ _
    have hne : pemEnd ++ r = 10 :: (45 :: str "----END " ++ r) := by rw [e]; rfl
    simp only [List.nil_append, List.length_nil]
    rw [hne, Index, ← hne, hp]
    rfl
  | cons c l ih =>
    have hl : (45 : UInt8) ∉ l := fun hm => h (List.mem_cons_of_mem _ hm)
    have hc : c ≠ 45 := fun hc => h (by simp [hc])
    have hnp : pemEnd.isPrefixOf (c :: (l ++ pemEnd ++ r)) = false := by
      rw [e]
      cases l with
      | nil =>
        simp only [List.nil_append, List.cons_append, List.isPrefixOf]
        simp
      | cons d l =>
        have hd : d ≠ 45 := fun hd => hl (by simp [hd])
        simp only [List.cons_append, List.isPrefixOf]
        have : ((45 : UInt8) == d) = false := by
          simp only [beq_eq_false_iff_ne, ne_eq]
          exact fun h => hd h.symm
        simp [this]
    simp only [List.cons_append, List.length_cons]
    rw [Index, hnp]
    simp only [Bool.false_eq_true, ite_false]
    have := ih hl
    simp only [List.append_assoc] at this ⊢
    rw [this]

end Pem
namespace Pem

open GoBytes

theorem Decode_empty_block :
    Decode (EncodeToMemory { type := str "PUBLIC KEY", headers := [], bytes := [] })
      = some ({ type := str "PUBLIC KEY", headers := [], bytes := [] }, []) := by
  decide

/-- `pem.Decode` inverts `pem.EncodeToMemory` on a `PUBLIC KEY` block without headers. -/
theorem Decode_EncodeToMemory (bytes : Bytes) :
    Decode (EncodeToMemory { type := str "PUBLIC KEY", headers := [], bytes := bytes })
      = some ({ type := str "PUBLIC KEY", headers := [], bytes := bytes }, []) := by
  rcases breakLines_shape 0 (Base64.EncodeToString bytes) with h | ⟨b, hb, hm⟩
  · have := Base64.EncodeToString_eq_nil _ (breakLines_zero_eq_nil _ h)
    subst this
    exact Decode_empty_block
  · -- the characters of the body
    have hx : ∀ c ∈ b, c ≠ 13 ∧ c ≠ 9 ∧ c ≠ 32 ∧ c ≠ 45 ∧ c ≠ 58 := by
      intro c hc
      rcases hm c hc with h | h
      · have := Base64.alphabet_excludes c (Base64.mem_EncodeToString _ c h)
        exact ⟨this.2.1, this.2.2.1, this.2.2.2.1, this.2.2.2.2.1, this.2.2.2.2.2⟩
      · subst h
        decide
    have h45 : (45 : UInt8) ∉ b := fun hc => (hx 45 hc).2.2.2.1 rfl
    -- decoding the body
    have hdec : Base64.DecodeString (removeSpacesAndTabs b) = .ok bytes := by
      have e1 : removeSpacesAndTabs b = b := by
        unfold removeSpacesAndTabs
        rw [List.filter_eq_self]
        intro c hc
        have := hx c hc
        simp [this.2.2.1, this.2.1]
      rw [e1]
      unfold Base64.DecodeString
      rw [← Base64.decodeLoop_filter]
      have e2 : b.filter (fun c => !Base64.isNewline c)
          = (Base64.EncodeToString bytes).filter (fun c => !Base64.isNewline c) := by
        have h0 := breakLines_filter 0 (Base64.EncodeToString bytes)
        have h1 : [(10 : UInt8)].filter (fun c => !Base64.isNewline c) = [] := by decide
        rw [hb, List.filter_append, h1, List.append_nil] at h0
        exact h0
      rw [e2, Base64.decodeLoop_filter]
      exact Base64.DecodeString_EncodeToString bytes
    -- the data, with the body in the middle
    have hdata : EncodeToMemory { type := str "PUBLIC KEY", headers := [], bytes := bytes }
        = pemStart.drop 1 ++ (str "PUBLIC KEY----" ++ [45] ++ 10 ::
            (b ++ pemEnd ++ str "PUBLIC KEY-----\n")) := by
      unfold EncodeToMemory
      rw [hb]
      have e1 : pemEnd = 10 :: pemEnd.drop 1 := by decide
      have e2 : str "PUBLIC KEY" ++ str "-----\n" = str "PUBLIC KEY----" ++ [45] ++ [10] := by
        decide
      have e3 : str "PUBLIC KEY" ++ str "-----\n" = str "PUBLIC KEY-----\n" := by decide
      simp only [List.append_assoc]
      rw [e3]
      rw [← List.append_assoc (str "PUBLIC KEY") (str "-----\n"), e2]
      conv => rhs; rw [e1]
      simp only [List.append_assoc, List.singleton_append, List.cons_append, List.nil_append]
    set X := b ++ pemEnd ++ str "PUBLIC KEY-----\n" with hX
    have hXne : X ≠ [] := by
      rw [hX]
      have : pemEnd ≠ [] := by decide
      simp [this]
    have F1 : ∀ R : Bytes, HasPrefix (pemStart.drop 1 ++ R) (pemStart.drop 1) = true := by
      intro R
      unfold HasPrefix
      rw [List.isPrefixOf_iff_prefix]
      exact List.prefix_append _ _
    have F2 : ∀ R : Bytes, (pemStart.drop 1 ++ R).drop (pemStart.length - 1) = R := by
      intro R
      have : pemStart.length - 1 = (pemStart.drop 1).length := by decide
      rw [this, List.drop_left']
      rfl
    have F3 : getLine (str "PUBLIC KEY----" ++ [45] ++ 10 :: X)
        = (str "PUBLIC KEY----" ++ [45], X) :=
      getLine_snoc _ 45 X (by decide) (by decide) (by decide) (by decide) (by decide)
    have F5 : readHeaders (X.length + 1) X [] = some ([], X) := by
      have hne : X.isEmpty = false := by
        cases hc : X with
        | nil => exact absurd hc hXne
        | cons _ _ => rfl
      have h58 : (58 : UInt8) ∉ X := by
        rw [hX]
        simp only [List.mem_append, not_or]
        refine ⟨⟨fun hc => (hx 58 hc).2.2.2.2 rfl, by decide⟩, by decide⟩
      have hline : IndexByte (getLine X).1 58 = none :=
        IndexByte_eq_none _ _ (fun hc => h58 (mem_getLine _ _ hc))
      simp only [readHeaders, hne, hline]
      rfl
    have F6 : HasPrefix X (pemEnd.drop 1) = false := by
      have e : pemEnd.drop 1 = 45 :: str "----END " := by decide
      rw [hX, e]
      unfold HasPrefix
      cases hb2 : b with
      | nil => decide
      | cons d l =>
        have hd : d ≠ 45 := fun hd => h45 (by rw [hb2, hd]; simp)
        have : ((45 : UInt8) == d) = false := by
          simp only [beq_eq_false_iff_ne, ne_eq]
          exact fun h => hd h.symm
        simp [List.isPrefixOf, this]
    have F7 : Index X pemEnd = some b.length := Index_pemEnd b _ h45
    have F8 : X.drop (b.length + pemEnd.length) = str "PUBLIC KEY-----\n" := by
      rw [hX]
      have : b.length + pemEnd.length = (b ++ pemEnd).length := by simp
      rw [this, List.drop_left']
      rfl
    have F9 : X.take b.length = b := by
      rw [hX, List.append_assoc, List.take_left']
      rfl
    have F10 : X.drop (b.length + pemEnd.length - 1) = 32 :: str "PUBLIC KEY-----\n" := by
      have e : pemEnd = str "\n-----END" ++ [32] := by decide
      have : b.length + pemEnd.length - 1 = (b ++ str "\n-----END").length := by
        simp only [List.length_append]
        have : pemEnd.length = (str "\n-----END").length + 1 := by decide
        omega
      rw [this, hX, e]
      have e2 : b ++ (str "\n-----END" ++ [32]) ++ str "PUBLIC KEY-----\n"
          = (b ++ str "\n-----END") ++ (32 :: str "PUBLIC KEY-----\n") := by simp
      rw [e2, List.drop_left']
      rfl
    have hone : decodeOnce (EncodeToMemory
        { type := str "PUBLIC KEY", headers := [], bytes := bytes })
        = .found { type := str "PUBLIC KEY", headers := [], bytes := bytes } [] := by
      rw [hdata]
      have G1 : HasSuffix (str "PUBLIC KEY----" ++ [45]) pemEndOfLine = true := by decide
      have G2 : List.take ((str "PUBLIC KEY----" ++ [45]).length - pemEndOfLine.length)
          (str "PUBLIC KEY----" ++ [45]) = str "PUBLIC KEY" := by decide
      have G3 : ((str "PUBLIC KEY-----\n").length
          < (str "PUBLIC KEY").length + pemEndOfLine.length) = False := by
        simp only [eq_iff_iff, iff_false]
        decide
      have G4 : HasPrefix (List.take ((str "PUBLIC KEY").length + pemEndOfLine.length)
          (str "PUBLIC KEY-----\n")) (str "PUBLIC KEY") = true := by decide
      have G5 : HasSuffix (List.take ((str "PUBLIC KEY").length + pemEndOfLine.length)
          (str "PUBLIC KEY-----\n")) pemEndOfLine = true := by decide
      have G6 : ((getLine (List.drop ((str "PUBLIC KEY").length + pemEndOfLine.length)
          (str "PUBLIC KEY-----\n"))).1.length != 0) = false := by decide
      have G7 : (getLine (32 :: str "PUBLIC KEY-----\n")).2 = [] := by decide
      simp only [decodeOnce, F1, F2, F3, ite_true, G1, G2, F5, F6, F7, F8, F9, F10, G3, G4, G5,
        G6, G7, hdec, List.isEmpty_nil, Bool.not_true, Bool.false_eq_true, ite_false,
        Bool.and_false, Bool.or_self]
    unfold Decode
    rw [decodeFuel, hone]

end Pem

/-! ## encoding/pem: the passes of `Decode` never run out -/

namespace GoBytes

theorem IndexByte_lt (s : Bytes) (c : UInt8) (i : Nat) (h : IndexByte s c = some i) :
    i < s.length := by
  induction s generalizing i with
  | nil => simp [IndexByte] at h
  | cons x s ih =>
    unfold IndexByte at h
    split at h
    · cases h; simp
    · cases hi : IndexByte s c with
      | none => rw [hi] at h; cases h
      | some j =>
        rw [hi] at h
        cases h
        have := ih j hi
        simp only [List.length_cons]
        omega

theorem Index_le (s sep : Bytes) (i : Nat) (h : Index s sep = some i) :
    i + sep.length ≤ s.length := by
  induction s generalizing i with
  | nil =>
    unfold Index at h
    split at h
    · rename_i he
      cases h
      cases sep with
      | nil => simp
      | cons _ _ => simp at he
    · cases h
  | cons x s ih =>
    unfold Index at h
    split at h
    · rename_i hp
      cases h
      rw [List.isPrefixOf_iff_prefix] at hp
      have := hp.length_le
      omega
    · cases hi : Index s sep with
      | none => rw [hi] at h; cases h
      | some j =>
        rw [hi] at h
        cases h
        have := ih j hi
        simp only [List.length_cons]
        omega

end GoBytes

namespace Pem

open GoBytes

theorem getLine_rest_le (d : Bytes) : (getLine d).2.length ≤ d.length := by
  unfold getLine
  split
  · simp
  · simp only [List.length_drop]
    omega

theorem getLine_rest_lt (d : Bytes) (h : d ≠ []) : (getLine d).2.length < d.length := by
  have hpos : 0 < d.length := List.length_pos.mpr h
  unfold getLine
  split
  · simpa using hpos
  · simp only [List.length_drop]
    omega

/-- The header loop has fuel to spare: more fuel than `rest.length` changes nothing. -/
theorem readHeaders_fuel (f1 f2 : Nat) (rest : Bytes) (hs : List (Bytes × Bytes))
    (h1 : rest.length < f1) (h2 : rest.length < f2) :
    readHeaders f1 rest hs = readHeaders f2 rest hs := by
  induction f1 generalizing f2 rest hs with
  | zero => omega
  | succ n ih =>
    cases f2 with
    | zero => omega
    | succ m =>
      unfold readHeaders
      by_cases he : rest.isEmpty = true
      · simp only [he, ite_true]
      · simp only [he, Bool.false_eq_true, ite_false]
        have hne : rest ≠ [] := by
          intro h0
          rw [h0] at he
          exact he rfl
        have hlt := getLine_rest_lt rest hne
        cases IndexByte (getLine rest).1 58 with
        | none => rfl
        | some i =>
          simp only
          exact ih m _ _ (by omega) (by omega)

theorem readHeaders_rest_le (fuel : Nat) (rest : Bytes) (hs hs2 : List (Bytes × Bytes))
    (rest2 : Bytes) (h : readHeaders fuel rest hs = some (hs2, rest2)) :
    rest2.length ≤ rest.length := by
  induction fuel generalizing rest hs with
  | zero => simp [readHeaders] at h
  | succ n ih =>
    unfold readHeaders at h
    by_cases he : rest.isEmpty = true
    · simp only [he, ite_true] at h
      cases h
    · simp only [he, Bool.false_eq_true, ite_false] at h
      cases hi : IndexByte (getLine rest).1 58 with
      | none =>
        rw [hi] at h
        simp only [Option.some.injEq, Prod.mk.injEq] at h
        rw [← h.2]
      | some i =>
        rw [hi] at h
        simp only at h
        have := ih _ _ h
        have := getLine_rest_le rest
        omega

end Pem
namespace Pem

open GoBytes

theorem start_length (data rest0 : Bytes)
    (h : (if HasPrefix data (pemStart.drop 1) = true then some (data.drop (pemStart.length - 1))
      else
        match Index data pemStart with
        | some i => some (data.drop (i + pemStart.length))
        | none => none) = some rest0) :
    rest0.length < data.length := by
  have hl : pemStart.length = 12 := by decide
  split at h
  · rename_i hp
    cases h
    unfold HasPrefix at hp
    rw [List.isPrefixOf_iff_prefix] at hp
    have h1 := hp.length_le
    have h2 : (List.drop 1 pemStart).length = 11 := by decide
    simp only [List.length_drop, hl]
    omega
  · cases hi : Index data pemStart with
    | none => rw [hi] at h; cases h
    | some i =>
      rw [hi] at h
      cases h
      have := Index_le data pemStart i hi
      simp only [List.length_drop, hl] at this ⊢
      omega

/-- A rejected candidate block leaves strictly less data for the next pass. -/
theorem decodeOnce_rejected (data rest : Bytes) (h : decodeOnce data = .rejected rest) :
    rest.length < data.length := by
  unfold decodeOnce at h
  simp only at h
  split at h
  · cases h
  · rename_i rest0 hstart
    have h0 := start_length data rest0 hstart
    have h1 := getLine_rest_le rest0
    split at h
    · cases h
      omega
    · split at h
      · cases h
      · rename_i headers rest2 hrh
        have h2 := readHeaders_rest_le _ _ _ _ _ hrh
        have key : ∀ r, Attempt.rejected rest2 = Attempt.rejected r → r.length < data.length := by
          intro r hr
          cases hr
          omega
        split at h
        · exact key rest h
        · split at h
          · exact key rest h
          · split at h
            · exact key rest h
            · split at h
              · exact key rest h
              · split at h
                · exact key rest h
                · cases h

/-- `Decode` has fuel to spare: more passes than `data.length` are never used. -/
theorem decodeFuel_fuel (f1 f2 : Nat) (data : Bytes) (h1 : data.length < f1)
    (h2 : data.length < f2) : decodeFuel f1 data = decodeFuel f2 data := by
  induction f1 generalizing f2 data with
  | zero => omega
  | succ n ih =>
    cases f2 with
    | zero => omega
    | succ m =>
      unfold decodeFuel
      cases hd : decodeOnce data with
      | notFound => rfl
      | found p rest => rfl
      | rejected rest =>
        have := decodeOnce_rejected data rest hd
        exact ih m rest (by omega) (by omega)

/-- `Decode` is the limit of the passes: any larger number of passes gives its result. -/
theorem Decode_eq_decodeFuel (data : Bytes) (fuel : Nat) (h : data.length < fuel) :
    decodeFuel fuel data = Decode data :=
  decodeFuel_fuel fuel (data.length + 1) data h (Nat.lt_succ_self _)

end Pem

/-! ## crypto/x509: parsing inverts marshalling on the points of P-256 -/

theorem length_beBytes (n x : Nat) : (beBytes n x).length = n := by
  induction n with
  | zero => rfl
  | succ n ih => simp [beBytes, ih]

theorem foldl_beBytes (n x a : Nat) :
    (beBytes n x).foldl (fun acc b => acc * 256 + b.toNat) a = a * 256 ^ n + x % 256 ^ n := by
  induction n generalizing a with
  | zero => simp [beBytes, Nat.mod_one]
  | succ n ih =>
    simp only [beBytes, List.foldl_cons]
    rw [ih]
    have h1 : (UInt8.ofNat (x >>> (8 * n))).toNat = x / 256 ^ n % 256 := by
      have : (UInt8.ofNat (x >>> (8 * n))).toNat = (x >>> (8 * n)) % 256 := by
        simp [UInt8.ofNat, UInt8.toNat, Fin.ofNat]
      rw [this, Nat.shiftRight_eq_div_pow, Nat.pow_mul]
    rw [h1, Nat.mod_pow_succ]
    ring

/-- Reading back the big-endian bytes of a number that fits gives the number. -/
theorem fromBytes_beBytes (n x : Nat) (h : x < 256 ^ n) : fromBytes (beBytes n x) = x := by
  unfold fromBytes
  rw [foldl_beBytes, Nat.mod_eq_of_lt h]
  simp

namespace Asn1

theorem short_length_bits (len : Nat) (h : len < 128) :
    (len &&& 0x80 == 0) = true ∧ len &&& 0x7f = len := by
  have : ∀ l : Fin 128, (l.val &&& 0x80 == 0) = true ∧ l.val &&& 0x7f = l.val := by decide
  exact this ⟨len, h⟩

theorem toNat_ofNat_lt (n : Nat) (h : n < 256) : (UInt8.ofNat n).toNat = n := by
  have : (UInt8.ofNat n).toNat = n % 256 := by
    simp [UInt8.ofNat, UInt8.toNat, Fin.ofNat]
  rw [this, Nat.mod_eq_of_lt h]

theorem element_short (id : UInt8) (contents : Bytes) (h : contents.length < 128) :
    element id contents = id :: UInt8.ofNat contents.length :: contents := by
  unfold element encodeLength
  have : ¬ contents.length ≥ 128 := by omega
  simp [this]

theorem parseTagAndLength_element (id : UInt8) (contents rest : Bytes)
    (hid : (id.toNat &&& 0x1f == 0x1f) = false) (h : contents.length < 128) :
    parseTagAndLength (element id contents ++ rest)
      = .ok ({ cls := id.toNat >>> 6, tag := id.toNat &&& 0x1f, length := contents.length,
               isCompound := id.toNat &&& 0x20 == 0x20 }, contents ++ rest) := by
  rw [element_short id contents h]
  have hb := short_length_bits contents.length h
  have ht := toNat_ofNat_lt contents.length (by omega)
  simp only [List.cons_append, parseTagAndLength, hid, Bool.false_eq_true, ite_false,
    parseLength, ht, hb.1, hb.2, ite_true]

/-- Parsing inverts the encoding of a short element with the expected identifier. -/
theorem parseElement_element (tag : Nat) (compound : Bool) (id : UInt8) (contents rest : Bytes)
    (hid : (id.toNat &&& 0x1f == 0x1f) = false)
    (hmatch : (id.toNat >>> 6 != 0 || id.toNat &&& 0x1f != tag
      || (id.toNat &&& 0x20 == 0x20) != compound) = false)
    (h : contents.length < 128) :
    parseElement tag compound (element id contents ++ rest) = .ok (contents, rest) := by
  unfold parseElement
  rw [parseTagAndLength_element id contents rest hid h]
  have hne : (element id contents ++ rest).isEmpty = false := by
    rw [element_short id contents h]
    rfl
  have hlen : ¬ contents.length > (contents ++ rest).length := by
    simp
  simp only [hne, Bool.false_eq_true, ite_false, hmatch, hlen, List.take_left', List.drop_left']

theorem parseOptionalRawValue_element (id : UInt8) (contents : Bytes)
    (hid : (id.toNat &&& 0x1f == 0x1f) = false) (h : contents.length < 128) :
    parseOptionalRawValue (element id contents) = .ok (element id contents, []) := by
  unfold parseOptionalRawValue
  have e : element id contents = element id contents ++ [] := by simp
  have hne : (element id contents).isEmpty = false := by
    rw [element_short id contents h]
    rfl
  rw [hne]
  conv => lhs; rw [e, parseTagAndLength_element id contents [] hid h]
  have hlen : ¬ contents.length > contents.length := by omega
  have : (element id contents).length - contents.length + contents.length
      = (element id contents).length := by
    rw [element_short id contents h]
    simp only [List.length_cons]
    omega
  simp only [Bool.false_eq_true, ite_false, List.append_nil, List.drop_length, this,
    List.take_length, hlen]

end Asn1
namespace Curve

theorem Unmarshal_Marshal (c : Curve) (x y : Nat) (hx : x < c.P) (hy : y < c.P)
    (hfit : c.P ≤ 256 ^ c.byteLen) (hon : c.IsOnCurve x y = true) :
    c.Unmarshal (c.Marshal x y) = some (x, y) := by
  unfold Unmarshal Marshal
  have hlen : (4 :: (beBytes c.byteLen x ++ beBytes c.byteLen y)).length = 1 + 2 * c.byteLen := by
    simp only [List.length_cons, List.length_append, length_beBytes]
    omega
  have h1 : ((4 :: (beBytes c.byteLen x ++ beBytes c.byteLen y)).length != 1 + 2 * c.byteLen)
      = false := by
    rw [hlen]
    simp
  have h2 : ((4 :: (beBytes c.byteLen x ++ beBytes c.byteLen y)).getD 0 0 != 4) = false := by
    rfl
  have htake : ((4 :: (beBytes c.byteLen x ++ beBytes c.byteLen y)).drop 1).take c.byteLen
      = beBytes c.byteLen x := by
    simp only [List.drop_succ_cons, List.drop_zero]
    rw [List.take_left' (length_beBytes _ _)]
  have hdrop : (4 :: (beBytes c.byteLen x ++ beBytes c.byteLen y)).drop (1 + c.byteLen)
      = beBytes c.byteLen y := by
    rw [Nat.add_comm, List.drop_succ_cons, List.drop_left' (length_beBytes _ _)]
  rw [h1, h2, htake, hdrop, fromBytes_beBytes _ _ (Nat.lt_of_lt_of_le hx hfit),
    fromBytes_beBytes _ _ (Nat.lt_of_lt_of_le hy hfit)]
  have h3 : ¬ (x ≥ c.P) := by omega
  have h4 : ¬ (y ≥ c.P) := by omega
  simp [h3, h4, hon]

end Curve

namespace X509

open Asn1

/-- The PKIX encoding of a P-256 key with coordinates in range. -/
theorem Marshal_P256 (pub : Ecdsa.PublicKey) (hc : pub.Curve = .P256)
    (hx : pub.X < Curve.P256.P) (hy : pub.Y < Curve.P256.P) :
    MarshalPKIXPublicKey pub = .ok
      (element 0x30 (element 0x30 (element 0x06 [42, 134, 72, 206, 61, 2, 1]
          ++ element 0x06 [42, 134, 72, 206, 61, 3, 1, 7])
        ++ element 0x03 (0 :: Curve.P256.Marshal pub.X pub.Y))) := by
  have hP : Curve.P256.P ≤ 2 ^ (8 * Curve.P256.byteLen) := by decide
  have e1 : encodeObjectIdentifier oidPublicKeyECDSA = some [42, 134, 72, 206, 61, 2, 1] := by
    decide
  have e2 : encodeObjectIdentifier (oidFromNamedCurve .P256)
      = some [42, 134, 72, 206, 61, 3, 1, 7] := by decide
  unfold MarshalPKIXPublicKey
  rw [hc]
  have h3 : ¬ (pub.X ≥ 2 ^ (8 * Curve.P256.byteLen)) := by omega
  have h4 : ¬ (pub.Y ≥ 2 ^ (8 * Curve.P256.byteLen)) := by omega
  simp only [h3, h4, decide_False, Bool.or_self, Bool.false_eq_true, ite_false, e1, e2]

end X509
namespace X509

open Asn1

theorem length_Marshal (c : Curve) (x y : Nat) : (c.Marshal x y).length = 1 + 2 * c.byteLen := by
  unfold Curve.Marshal
  simp only [List.length_cons, List.length_append, length_beBytes]
  omega

/-- `ParsePKIXPublicKey` reads the PKIX encoding of a point of P-256 back. -/
theorem Parse_P256 (x y : Nat) (hx : x < Curve.P256.P) (hy : y < Curve.P256.P)
    (hon : Curve.P256.IsOnCurve x y = true) :
    ParsePKIXPublicKey
      (element 0x30 (element 0x30 (element 0x06 [42, 134, 72, 206, 61, 2, 1]
          ++ element 0x06 [42, 134, 72, 206, 61, 3, 1, 7])
        ++ element 0x03 (0 :: Curve.P256.Marshal x y)))
      = .ok (.ecdsa { Curve := .P256, X := x, Y := y }) := by
  have hM : (Curve.P256.Marshal x y).length = 65 := by
    rw [length_Marshal]
    rfl
  have hP : Curve.P256.P ≤ 256 ^ Curve.P256.byteLen := by decide
  set pk := Curve.P256.Marshal x y with hpk
  set alg : Bytes := [42, 134, 72, 206, 61, 2, 1] with halg
  set par : Bytes := [42, 134, 72, 206, 61, 3, 1, 7] with hpar
  have lpar : (element 0x06 par).length = 10 := by decide
  have lalg : (element 0x06 alg).length = 9 := by decide
  have lseq : (element 0x30 (element 0x06 alg ++ element 0x06 par)).length = 21 := by decide
  have lbit : (element 0x03 (0 :: pk)).length = 68 := by
    rw [element_short _ _ (by simp only [List.length_cons, hM]; omega)]
    simp only [List.length_cons, hM]
  -- the four elements
  have p1 : parseElement 16 true
      (element 0x30 (element 0x30 (element 0x06 alg ++ element 0x06 par)
        ++ element 0x03 (0 :: pk)))
      = .ok (element 0x30 (element 0x06 alg ++ element 0x06 par) ++ element 0x03 (0 :: pk), []) := by
    have := parseElement_element 16 true 0x30
      (element 0x30 (element 0x06 alg ++ element 0x06 par) ++ element 0x03 (0 :: pk)) []
      (by decide) (by decide) (by simp only [List.length_append, lseq, lbit]; omega)
    simpa using this
  have p2 : parseElement 16 true
      (element 0x30 (element 0x06 alg ++ element 0x06 par) ++ element 0x03 (0 :: pk))
      = .ok (element 0x06 alg ++ element 0x06 par, element 0x03 (0 :: pk)) :=
    parseElement_element 16 true 0x30 _ _ (by decide) (by decide)
      (by simp only [List.length_append, lalg, lpar]; omega)
  have p3 : parseElement 6 false (element 0x06 alg ++ element 0x06 par)
      = .ok (alg, element 0x06 par) :=
    parseElement_element 6 false 0x06 _ _ (by decide) (by decide) (by decide)
  have p4 : parseObjectIdentifier alg = .ok oidPublicKeyECDSA := by decide
  have p5 : parseOptionalRawValue (element 0x06 par) = .ok (element 0x06 par, []) :=
    parseOptionalRawValue_element 0x06 par (by decide) (by decide)
  have p6 : parseElement 3 false (element 0x03 (0 :: pk)) = .ok (0 :: pk, []) := by
    have := parseElement_element 3 false 0x03 (0 :: pk) [] (by decide) (by decide)
      (by simp only [List.length_cons, hM]; omega)
    simpa using this
  have p7 : parseBitString (0 :: pk) = .ok { bytes := pk, BitLength := 520 } := by
    unfold parseBitString
    simp only [List.length_cons, hM]
    have z : (0 : UInt8).toNat = 0 := rfl
    simp [z]
  have p8 : parseElement 6 false (element 0x06 par) = .ok (par, []) := by
    have := parseElement_element 6 false 0x06 par [] (by decide) (by decide) (by decide)
    simpa using this
  have p9 : parseObjectIdentifier par = .ok oidNamedCurveP256 := by decide
  have p10 : namedCurveFromOID oidNamedCurveP256 = some .P256 := by decide
  have p11 : (BitString.RightAlign { bytes := pk, BitLength := 520 }) = pk := by
    unfold BitString.RightAlign
    simp
  have p12 : Curve.P256.Unmarshal pk = some (x, y) :=
    Curve.Unmarshal_Marshal .P256 x y hx hy hP hon
  have u : unmarshalPublicKeyInfo
      (element 0x30 (element 0x30 (element 0x06 alg ++ element 0x06 par)
        ++ element 0x03 (0 :: pk)))
      = .ok ({ Algorithm := oidPublicKeyECDSA, Parameters := element 0x06 par,
               PublicKey := { bytes := pk, BitLength := 520 } }, []) := by
    simp only [unmarshalPublicKeyInfo, p1, p2, p3, p4, p5, p6, p7]
  have a1 : (oidPublicKeyECDSA == oidPublicKeyRSA) = false := by decide
  have a2 : (oidPublicKeyECDSA == oidPublicKeyDSA) = false := by decide
  have a3 : (oidPublicKeyECDSA == oidPublicKeyECDSA) = true := by decide
  unfold ParsePKIXPublicKey
  rw [u]
  simp only [List.length_nil, bne_self_eq_false, Bool.false_eq_true, ite_false, parsePublicKey,
    a1, a2, a3, ite_true, parseECDSA, p8, p9, p10, p11, p12]

end X509

/-! ## Fuel of the string encoder and of the OBJECT IDENTIFIER parser -/

namespace Json

/-- The string encoder has fuel to spare: more fuel than the length of the string changes
nothing. -/
theorem stringBody_fuel (f1 f2 : Nat) (s : Bytes) (h1 : s.length < f1) (h2 : s.length < f2) :
    stringBody f1 s = stringBody f2 s := by
  induction f1 generalizing f2 s with
  | zero => omega
  | succ n ih =>
    cases f2 with
    | zero => omega
    | succ m =>
      cases s with
      | nil => rfl
      | cons b rest =>
        simp only [List.length_cons] at h1 h2
        have hr : stringBody n rest = stringBody m rest := ih m rest (by omega) (by omega)
        have hd : ∀ k, stringBody n (rest.drop k) = stringBody m (rest.drop k) := by
          intro k
          have : (rest.drop k).length ≤ rest.length := by
            simp only [List.length_drop]
            omega
          exact ih m _ (by omega) (by omega)
        simp only [stringBody, hr, hd]

end Json

namespace Asn1

theorem parseBase128Int_rest (b : Bytes) (shifted ret64 v : Nat) (rest : Bytes)
    (h : parseBase128Int b shifted ret64 = .ok (v, rest)) : rest.length < b.length := by
  induction b generalizing shifted ret64 with
  | nil => simp [parseBase128Int] at h
  | cons x b ih =>
    unfold parseBase128Int at h
    split at h
    · cases h
    · split at h
      · cases h
      · simp only at h
        split at h
        · split at h
          · cases h
          · cases h
            simp
        · have := ih _ _ h
          simp only [List.length_cons]
          omega

/-- The loop over the components of an OBJECT IDENTIFIER has fuel to spare. -/
theorem parseOIDTail_fuel (f1 f2 : Nat) (b : Bytes) (h1 : b.length ≤ f1) (h2 : b.length ≤ f2) :
    parseOIDTail f1 b = parseOIDTail f2 b := by
  induction f1 generalizing f2 b with
  | zero =>
    have hb : b = [] := List.length_eq_zero.mp (by omega)
    subst hb
    cases f2 <;> rfl
  | succ n ih =>
    cases f2 with
    | zero =>
      have hb : b = [] := List.length_eq_zero.mp (by omega)
      subst hb
      rfl
    | succ m =>
      unfold parseOIDTail
      by_cases he : b.isEmpty = true
      · simp only [he, ite_true]
      · simp only [he, Bool.false_eq_true, ite_false]
        cases hp : parseBase128Int b 0 0 with
        | error e => rfl
        | ok vr =>
          obtain ⟨v, rest⟩ := vr
          have := parseBase128Int_rest b 0 0 v rest hp
          simp only
          rw [ih m rest (by omega) (by omega)]

end Asn1

/-! ## encoding/json: the string encoder writes no control character -/

namespace Utf8

theorem first_lo (s0 sz lo hi : Nat) (h : first s0 = some (sz, lo, hi)) : 0x80 ≤ lo := by
  unfold first at h
  repeat' split at h
  all_goals (first | (cases h; done) | (simp only [Option.some.injEq, Prod.mk.injEq] at h; omega))

theorem mem_take_getD (l : Bytes) (k : Nat) (x : UInt8) (h : x ∈ l.take k) :
    ∃ i, i < k ∧ x = l.getD i 0 := by
  induction l generalizing k with
  | nil => simp at h
  | cons a l ih =>
    cases k with
    | zero => simp at h
    | succ k =>
      simp only [List.take_succ_cons, List.mem_cons] at h
      rcases h with rfl | h
      · exact ⟨0, by omega, rfl⟩
      · obtain ⟨i, hi, hx⟩ := ih k h
        exact ⟨i + 1, by omega, by simpa using hx⟩

theorem isCont_ge (b : Nat) (h : isCont b = true) : 0x80 ≤ b := by
  simp only [isCont, Bool.and_eq_true, decide_eq_true_eq] at h
  exact h.1

/-- The bytes of a decoded rune after its first byte are continuation bytes. -/
theorem DecodeRuneInString_bytes (b : UInt8) (rest : Bytes) (x : UInt8)
    (h : x ∈ (b :: rest).take (DecodeRuneInString (b :: rest)).2) :
    x = b ∨ 0x80 ≤ x.toNat := by
  unfold DecodeRuneInString at h
  simp only at h
  split at h
  · split at h <;> simp at h <;> exact Or.inl h
  · rename_i sz lo hi hf
    have hlo := first_lo _ _ _ _ hf
    split at h
    · simp at h; exact Or.inl h
    · split at h
      · simp at h; exact Or.inl h
      · rename_i h1
        simp only [Bool.or_eq_true, decide_eq_true_eq, not_or, Nat.not_lt] at h1
        have e1 : 0x80 ≤ (rest.getD 0 0).toNat := by omega
        split at h
        · simp only [List.take_succ_cons, List.mem_cons] at h
          rcases h with h | h
          · exact Or.inl h
          · obtain ⟨i, hi, hx⟩ := mem_take_getD rest 1 x h
            have : i = 0 := by omega
            subst this
            rw [hx]
            exact Or.inr e1
        · split at h
          · simp at h; exact Or.inl h
          · rename_i h2
            have e2 : 0x80 ≤ (rest.getD 1 0).toNat :=
              isCont_ge _ (by simpa using h2)
            split at h
            · simp only [List.take_succ_cons, List.mem_cons] at h
              rcases h with h | h
              · exact Or.inl h
              · obtain ⟨i, hi, hx⟩ := mem_take_getD rest 2 x h
                have : i = 0 ∨ i = 1 := by omega
                rcases this with rfl | rfl
                · rw [hx]; exact Or.inr e1
                · rw [hx]; exact Or.inr e2
            · split at h
              · simp at h; exact Or.inl h
              · rename_i h3
                have e3 : 0x80 ≤ (rest.getD 2 0).toNat :=
                  isCont_ge _ (by simpa using h3)
                simp only [List.take_succ_cons, List.mem_cons] at h
                rcases h with h | h
                · exact Or.inl h
                · obtain ⟨i, hi, hx⟩ := mem_take_getD rest 3 x h
                  have : i = 0 ∨ i = 1 ∨ i = 2 := by omega
                  rcases this with rfl | rfl | rfl
                  · rw [hx]; exact Or.inr e1
                  · rw [hx]; exact Or.inr e2
                  · rw [hx]; exact Or.inr e3

end Utf8
namespace Json

theorem hex_ge (k : Nat) (h : k < 16) : 0x20 ≤ (hex.getD k 0).toNat := by
  have : ∀ i : Fin 16, 0x20 ≤ (hex.getD i.val 0).toNat := by decide
  exact this ⟨k, h⟩

theorem low_nibble (n : Nat) : n &&& 0xF < 16 := by
  have : n &&& 0xF = n % 16 := Nat.and_pow_two_sub_one_eq_mod n 4
  omega

theorem high_nibble (n : Nat) (h : n < 0x80) : n >>> 4 < 16 := by
  rw [Nat.shiftRight_eq_div_pow]
  omega

/-- The encoder writes no control character: every byte it writes is at least the space. -/
theorem stringBody_printable (fuel : Nat) (s : Bytes) :
    ∀ c ∈ stringBody fuel s, 0x20 ≤ c.toNat := by
  induction fuel generalizing s with
  | zero => intro c hc; simp [stringBody] at hc
  | succ n ih =>
    cases s with
    | nil => intro c hc; simp [stringBody] at hc
    | cons b rest =>
      have hlit : ∀ l : Bytes, (∀ x ∈ l, 0x20 ≤ x.toNat) → ∀ t : Bytes,
          ∀ c ∈ l ++ stringBody n t, 0x20 ≤ c.toNat := by
        intro l hl t c hc
        rcases List.mem_append.mp hc with h | h
        · exact hl c h
        · exact ih t c h
      unfold stringBody
      split
      · rename_i hb
        split
        · rename_i hsafe
          have : 0x20 ≤ b.toNat := by
            simp only [htmlSafeSet, Bool.and_eq_true, decide_eq_true_eq] at hsafe
            exact hsafe.1.1.1.1.1.1
          exact hlit [b] (by simpa using this) rest
        · split
          · rename_i hq
            have hb2 : b = 92 ∨ b = 34 := by simpa using hq
            exact hlit [92, b] (by rcases hb2 with rfl | rfl <;> decide) rest
          · split
            · exact hlit [92, 110] (by decide) rest
            · split
              · exact hlit [92, 114] (by decide) rest
              · split
                · exact hlit [92, 116] (by decide) rest
                · have h1 := hex_ge _ (high_nibble b.toNat hb)
                  have h2 := hex_ge _ (low_nibble b.toNat)
                  have e : str "\\u00" = [92, 117, 48, 48] := by decide
                  rw [e]
                  exact hlit (([92, 117, 48, 48] : Bytes) ++ [hex.getD (b.toNat >>> 4) 0,
                    hex.getD (b.toNat &&& 0xF) 0]) (by
                      intro x hx
                      simp only [List.cons_append, List.nil_append, List.mem_cons,
                        List.mem_singleton, List.not_mem_nil, or_false] at hx
                      rcases hx with rfl | rfl | rfl | rfl | rfl | rfl
                      · decide
                      · decide
                      · decide
                      · decide
                      · exact h1
                      · exact h2) rest
      · rename_i hb
        simp only
        split
        · exact hlit (str "\\ufffd") (by decide) rest
        · split
          · have h2 := hex_ge _ (low_nibble (Utf8.DecodeRuneInString (b :: rest)).1)
            have e : str "\\u202" = [92, 117, 50, 48, 50] := by decide
            rw [e]
            exact hlit (([92, 117, 50, 48, 50] : Bytes) ++
              [hex.getD ((Utf8.DecodeRuneInString (b :: rest)).1 &&& 0xF) 0]) (by
                intro x hx
                simp only [List.cons_append, List.nil_append, List.mem_cons,
                  List.mem_singleton, List.not_mem_nil, or_false] at hx
                rcases hx with rfl | rfl | rfl | rfl | rfl | rfl
                · decide
                · decide
                · decide
                · decide
                · decide
                · exact h2) _
          · exact hlit _ (by
              intro x hx
              rcases Utf8.DecodeRuneInString_bytes b rest x hx with rfl | h
              · omega
              · omega) _

theorem encodeString_printable (s : Bytes) : ∀ c ∈ encodeString s, 0x20 ≤ c.toNat := by
  intro c hc
  unfold encodeString at hc
  simp only [List.mem_cons, List.mem_append, List.mem_singleton, List.not_mem_nil,
    or_false] at hc
  rcases hc with rfl | h | rfl
  · decide
  · exact stringBody_printable _ s c h
  · decide

end Json

/-! ## The digest of the message -/

theorem written_foldl (chunks : List Bytes) (h : Sha256.Hasher) :
    (chunks.foldl (fun h p => h.Write p) h).written
      = h.written ++ chunks.foldr (fun c acc => c ++ acc) [] := by
  induction chunks generalizing h with
  | nil => simp
  | cons c cs ih =>
    simp only [List.foldl_cons, List.foldr_cons]
    rw [ih]
    simp only [Sha256.Hasher.Write, List.append_assoc]

/-- Copying a file into a fresh hasher leaves the digest of the contents of the file. -/
theorem ioCopy_New (f : File) :
    (ioCopy Sha256.New f).1.Sum = Sha256.checkSum f.contents ∧ (ioCopy Sha256.New f).2 = f.err := by
  unfold ioCopy Sha256.Hasher.Sum File.contents
  simp only [written_foldl, Sha256.New, List.nil_append, and_self]

theorem hashMessage_openable (os : OS) (message : Bytes) (f : File)
    (h : os.Lookup message = .openable f) :
    Verifier.hashMessage os message =
      match f.err with
      | some err => .error (.logPanic (str "unable to decode or read message: " ++ str err.msg))
      | none => .ok (Sha256.checkSum f.contents) := by
  have hc := ioCopy_New f
  unfold Verifier.hashMessage OS.Open
  simp only [h]
  cases hi : ioCopy Sha256.New f with
  | mk h1 e =>
    rw [hi] at hc
    simp only at hc
    cases e with
    | none => simp only [← hc.2, hc.1]
    | some err => simp only [← hc.2]

theorem hashMessage_not_openable (os : OS) (message : Bytes)
    (h : ∀ f, os.Lookup message ≠ .openable f) :
    Verifier.hashMessage os message = .ok (Sha256.checkSum message) := by
  unfold Verifier.hashMessage OS.Open
  cases hl : os.Lookup message with
  | missing e => simp [Sha256.Hasher.Sum, Sha256.Hasher.Write, Sha256.New]
  | denied e => simp [Sha256.Hasher.Sum, Sha256.Hasher.Write, Sha256.New]
  | openable f => exact absurd hl (h f)

theorem hashMessage_resolves (os : OS) (message b : Bytes) (h : Verifier.resolves os message b) :
    Verifier.hashMessage os message = .ok (Sha256.checkSum b) := by
  rcases h with ⟨f, hf, he, hc⟩ | ⟨hn, rfl⟩
  · rw [hashMessage_openable os message f hf, he, hc]
  · exact hashMessage_not_openable os message hn

theorem resolves_of_hashMessage (os : OS) (message hash : Bytes)
    (h : Verifier.hashMessage os message = .ok hash) :
    ∃ b, Verifier.resolves os message b ∧ hash = Sha256.checkSum b := by
  cases hl : os.Lookup message with
  | openable f =>
    rw [hashMessage_openable os message f hl] at h
    cases he : f.err with
    | none =>
      rw [he] at h
      cases h
      exact ⟨f.contents, Or.inl ⟨f, hl, he, rfl⟩, rfl⟩
    | some e => rw [he] at h; cases h
  | missing e =>
    have hn : ∀ f, os.Lookup message ≠ .openable f := by rw [hl]; intro f h; cases h
    rw [hashMessage_not_openable os message hn] at h
    cases h
    exact ⟨message, Or.inr ⟨hn, rfl⟩, rfl⟩
  | denied e =>
    have hn : ∀ f, os.Lookup message ≠ .openable f := by rw [hl]; intro f h; cases h
    rw [hashMessage_not_openable os message hn] at h
    cases h
    exact ⟨message, Or.inr ⟨hn, rfl⟩, rfl⟩

/-- A SHA-256 digest has 32 bytes. -/
theorem length_checkSum (m : Bytes) : (Sha256.checkSum m).length = 32 := by
  simp [Sha256.checkSum, length_beBytes]

/-! # The claims

## C9: the digest of the empty input -/

set_option maxRecDepth 100000 in
theorem checkSum_empty_hex : Hex.EncodeToString (Sha256.checkSum [])
    = str "e3b0c44298fc1c149afbf4c8996fb92427ae41e4649b934ca495991b7852b855" := by decide

theorem sign_nil (C : Crypto) (rand : C.Rand) (p : Ecdsa.PrivateKey) :
    Action.sign C rand [] p =
      match C.SignASN1 rand p (Sha256.checkSum []) with
      | .error err => .error (.logFatal (str err.msg))
      | .ok (sig, rand1) =>
        .ok ((Base64.EncodeToString sig,
          str "e3b0c44298fc1c149afbf4c8996fb92427ae41e4649b934ca495991b7852b855"), rand1) := by
  unfold Action.sign
  simp only [Sha256.New, Sha256.Hasher.Write, Sha256.Hasher.Sum, List.append_nil,
    checkSum_empty_hex]

/-- C9, as amended: `sign` applied to the empty byte sequence signs the SHA-256 digest of the
empty input, and whenever signing succeeds its second result (the value published as `sha256`)
is the 64-digit hexadecimal string that ends in `b855`. -/
theorem sign_empty_sha256 (C : Crypto) (rand : C.Rand) (p : Ecdsa.PrivateKey) :
    Action.sign C rand [] p =
      match C.SignASN1 rand p (Sha256.checkSum []) with
      | .error err => .error (.logFatal (str err.msg))
      | .ok (sig, rand1) =>
        .ok ((Base64.EncodeToString sig,
          str "e3b0c44298fc1c149afbf4c8996fb92427ae41e4649b934ca495991b7852b855"), rand1) :=
  sign_nil C rand p

set_option maxRecDepth 100000 in
/-- C9, as stated, fails: on the empty byte sequence `sign` returns, as its second result, the
64-digit digest, which is not the 63-digit string of the claim. -/
theorem sign_empty_not_b85 :
    Action.sign Example.crypto () [] Example.key
      = .ok ((Base64.EncodeToString (Sha256.checkSum []),
          str "e3b0c44298fc1c149afbf4c8996fb92427ae41e4649b934ca495991b7852b855"), ()) ∧
    str "e3b0c44298fc1c149afbf4c8996fb92427ae41e4649b934ca495991b7852b855"
      ≠ str "e3b0c44298fc1c149afbf4c8996fb92427ae41e4649b934ca495991b7852b85" := by
  constructor
  · rw [sign_nil]
    rfl
  · decide

/-! ## C4: message resolution -/

/-- Once the arguments are decoded, `main` is the ECDSA check of the signature over the digest
of the resolved message. -/
theorem main_of_decoded (C : Crypto) (os : OS) (prog sig pub message sigBytes pubBytes : Bytes)
    (key : Ecdsa.PublicKey) (hargs : os.Args = [prog, sig, pub, message])
    (hsig : Verifier.mustDecode sig = .ok sigBytes) (hpub : Verifier.mustDecode pub = .ok pubBytes)
    (hkey : Verifier.parseKey pubBytes = .ok key) :
    Verifier.main C os =
      match Verifier.hashMessage os message with
      | .error x => ⟨[], x⟩
      | .ok hash => if C.VerifyASN1 key hash sigBytes = true then Verifier.accept
                    else Verifier.reject := by
  unfold Verifier.main
  simp only [hargs, hsig, hpub, hkey]
  cases Verifier.hashMessage os message with
  | error x => rfl
  | ok hash =>
    simp only [Verifier.accept, Verifier.reject]
    cases C.VerifyASN1 key hash sigBytes <;> rfl

/-- C4, as amended: the digest that the verifier checks is the SHA-256 of the contents of the
file that the message argument names when that file opens and reads to its end, and the SHA-256
of the bytes of the argument itself when the argument names no file that opens; when the file
opens and reading it fails there is no digest: message resolution ends in a panic.  One source
is hashed, once; a file with contents `b` and a literal argument with bytes `b` give the same
digest; and the digest is the one handed to the ECDSA check. -/
theorem message_digest (os : OS) (message : Bytes) :
    (∀ f, os.Lookup message = .openable f → f.err = none →
        Verifier.hashMessage os message = .ok (Sha256.checkSum f.contents)) ∧
    ((∀ f, os.Lookup message ≠ .openable f) →
        Verifier.hashMessage os message = .ok (Sha256.checkSum message)) ∧
    (∀ f e, os.Lookup message = .openable f → f.err = some e →
        Verifier.hashMessage os message
          = .error (.logPanic (str "unable to decode or read message: " ++ str e.msg))) ∧
    (∀ (os2 : OS) (b : Bytes) (f : File), os.Lookup message = .openable f → f.err = none →
        f.contents = b → (∀ g, os2.Lookup b ≠ .openable g) →
        Verifier.hashMessage os message = Verifier.hashMessage os2 b) ∧
    (∀ (C : Crypto) (prog sig pub sigBytes pubBytes : Bytes) (key : Ecdsa.PublicKey) (d : Bytes),
        os.Args = [prog, sig, pub, message] → Verifier.mustDecode sig = .ok sigBytes →
        Verifier.mustDecode pub = .ok pubBytes → Verifier.parseKey pubBytes = .ok key →
        Verifier.hashMessage os message = .ok d →
        Verifier.main C os = if C.VerifyASN1 key d sigBytes = true then Verifier.accept
                             else Verifier.reject) := by
  refine ⟨?_, ?_, ?_, ?_, ?_⟩
  · intro f hf he
    rw [hashMessage_openable os message f hf, he]
  · exact hashMessage_not_openable os message
  · intro f e hf he
    rw [hashMessage_openable os message f hf, he]
  · intro os2 b f hf he hc hn
    rw [hashMessage_openable os message f hf, he, hc, hashMessage_not_openable os2 b hn]
  · intro C prog sig pub sigBytes pubBytes key d hargs hsig hpub hkey hd
    rw [main_of_decoded C os prog sig pub message sigBytes pubBytes key hargs hsig hpub hkey, hd]

set_option maxRecDepth 100000 in
/-- C4, as stated, fails: the argument `broken` names a file that exists and is not readable
(it opens, and reading it fails after the bytes `par`); the digest is not the SHA-256 of the
bytes of the argument, nor of the bytes read: there is none, message resolution panics. -/
theorem unreadable_file_not_literal :
    Example.brokenFile (str "broken")
      = .openable { chunks := [str "par"], err := some ⟨"input/output error"⟩ } ∧
    Verifier.hashMessage ⟨[], Example.brokenFile, Example.noEnv⟩ (str "broken")
      = .error (.logPanic (str "unable to decode or read message: input/output error")) ∧
    Verifier.hashMessage ⟨[], Example.brokenFile, Example.noEnv⟩ (str "broken")
      ≠ .ok (Sha256.checkSum (str "broken")) := by
  decide

set_option maxRecDepth 100000 in
/-- C4, as amended, on an example: the file `artifact.txt` holds `hello`, read in two chunks, and no file is
named `hello`; the file and the literal give the digest of `hello`. -/
theorem message_digest_example :
    Verifier.hashMessage ⟨[], Example.withArtifact, Example.noEnv⟩ (str "artifact.txt")
      = .ok (Sha256.checkSum (str "hello")) ∧
    Verifier.hashMessage ⟨[], Example.withArtifact, Example.noEnv⟩ (str "hello")
      = .ok (Sha256.checkSum (str "hello")) := by
  have h := message_digest ⟨[], Example.withArtifact, Example.noEnv⟩ (str "artifact.txt")
  constructor
  · exact h.1 { chunks := [str "hel", str "lo"], err := none } (by decide) rfl
  · decide

/-! ## C5: when message resolution aborts -/

theorem hashMessage_error (os : OS) (message : Bytes) (x : Exit)
    (hx : Verifier.hashMessage os message = .error x) :
    ∃ f e, os.Lookup message = .openable f ∧ f.err = some e ∧
      x = .logPanic (str "unable to decode or read message: " ++ str e.msg) := by
  cases hl : os.Lookup message with
  | openable f =>
    rw [hashMessage_openable os message f hl] at hx
    cases he : f.err with
    | none => rw [he] at hx; cases hx
    | some e =>
      rw [he] at hx
      simp only [Except.error.injEq] at hx
      exact ⟨f, e, rfl, he, hx.symm⟩
  | missing e =>
    rw [hashMessage_not_openable os message (by rw [hl]; intro f h; cases h)] at hx
    cases hx
  | denied e =>
    rw [hashMessage_not_openable os message (by rw [hl]; intro f h; cases h)] at hx
    cases hx

/-- C5, as amended: resolving the message aborts exactly when the argument names a file that
opens and whose reading fails; the abort is the panic `unable to decode or read message`, and a
run that reaches this step ends with it, before any signature check.  An argument that names no
file, or a file that cannot be opened, is hashed as a literal. -/
theorem message_abort_iff (os : OS) (message : Bytes) :
    ((∃ x, Verifier.hashMessage os message = .error x) ↔
        ∃ f e, os.Lookup message = .openable f ∧ f.err = some e) ∧
    (∀ x, Verifier.hashMessage os message = .error x →
        ∃ e : Error, x = .logPanic (str "unable to decode or read message: " ++ str e.msg)) ∧
    (∀ (C : Crypto) (prog sig pub sigBytes pubBytes : Bytes) (key : Ecdsa.PublicKey) (x : Exit),
        os.Args = [prog, sig, pub, message] → Verifier.mustDecode sig = .ok sigBytes →
        Verifier.mustDecode pub = .ok pubBytes → Verifier.parseKey pubBytes = .ok key →
        Verifier.hashMessage os message = .error x → Verifier.main C os = ⟨[], x⟩) ∧
    (∀ e, os.Lookup message = .missing e →
        Verifier.hashMessage os message = .ok (Sha256.checkSum message)) ∧
    (∀ e, os.Lookup message = .denied e →
        Verifier.hashMessage os message = .ok (Sha256.checkSum message)) := by
  have hopen := hashMessage_error os message
  refine ⟨⟨?_, ?_⟩, ?_, ?_, ?_, ?_⟩
  · rintro ⟨x, hx⟩
    obtain ⟨f, e, hf, he, _⟩ := hopen x hx
    exact ⟨f, e, hf, he⟩
  · rintro ⟨f, e, hf, he⟩
    rw [hashMessage_openable os message f hf, he]
    exact ⟨_, rfl⟩
  · intro x hx
    obtain ⟨f, e, _, _, h⟩ := hopen x hx
    exact ⟨e, h⟩
  · intro C prog sig pub sigBytes pubBytes key x hargs hsig hpub hkey hx
    rw [main_of_decoded C os prog sig pub message sigBytes pubBytes key hargs hsig hpub hkey, hx]
  · intro e hl
    exact hashMessage_not_openable os message (by rw [hl]; intro f h; cases h)
  · intro e hl
    exact hashMessage_not_openable os message (by rw [hl]; intro f h; cases h)

set_option maxRecDepth 1000000 in
/-- C5, as stated, fails: the file `secret` exists and cannot be opened, and the verifier does
not abort; it hashes the argument `secret` as a literal and reaches Accept. -/
theorem denied_file_not_abort :
    (Example.deniedFile (str "secret")).present = true ∧
    Verifier.hashMessage ⟨[], Example.deniedFile, Example.noEnv⟩ (str "secret")
      = .ok (Sha256.checkSum (str "secret")) ∧
    Verifier.main Example.crypto
      ⟨[str "verifier", Base64.EncodeToString (Sha256.checkSum (str "secret")),
        Example.p256Text, str "secret"], Example.deniedFile, Example.noEnv⟩
      = Verifier.accept := by
  decide

set_option maxRecDepth 1000000 in
/-- C5 on an example: the directory `dir` opens and reading it fails; the verifier panics. -/
theorem message_abort_example :
    Verifier.main Example.crypto
      ⟨[str "verifier", str "", Example.p256Text, str "dir"], Example.directory, Example.noEnv⟩
      = ⟨[], .logPanic (str "unable to decode or read message: is a directory")⟩ := by
  have h := (message_abort_iff
    ⟨[str "verifier", str "", Example.p256Text, str "dir"], Example.directory, Example.noEnv⟩
    (str "dir")).2.2.1 Example.crypto (str "verifier") (str "") Example.p256Text []
    Example.p256Pem Example.basePoint
    (.logPanic (str "unable to decode or read message: is a directory"))
    rfl (by decide) (by decide) (by decide) (by decide)
  exact h

/-! ## C10: the PEM block is used without a test for `nil` -/

set_option maxRecDepth 1000000 in
/-- C10 at the failing input: a public-key argument that is valid base64 of bytes without a PEM
block (`aGVsbG8=`, the text `hello`) ends the verifier in the run-time panic of a nil
dereference, not in one of the diagnostics of the program. -/
theorem nil_block_panics :
    Base64.DecodeString (str "aGVsbG8=") = .ok (str "hello") ∧
    Pem.Decode (str "hello") = none ∧
    Verifier.parseKey (str "hello")
      = .error (.runtimePanic "invalid memory address or nil pointer dereference") ∧
    Verifier.main Example.crypto
      ⟨[str "verifier", str "", str "aGVsbG8=", str "message"], Example.noFiles, Example.noEnv⟩
      = ⟨[], .runtimePanic "invalid memory address or nil pointer dereference"⟩ := by
  decide

/-! ## C2: the three outcomes of the verifier -/

theorem mustDecode_eq (s : Bytes) :
    Verifier.mustDecode s =
      match Base64.DecodeString s with
      | .error _ => .error (.logPanic (str "illegal base64 data at input byte"))
      | .ok b => .ok b := by
  unfold Verifier.mustDecode
  cases Base64.DecodeString s <;> rfl

/-- The verifier either finds every decoding step successful and then runs the ECDSA check, or
panics without output. -/
theorem main_trichotomy (C : Crypto) (os : OS) (prog sig pub message : Bytes)
    (hargs : os.Args = [prog, sig, pub, message]) :
    (∃ sigBytes key hash, Verifier.wellFormed os sig pub message sigBytes key hash ∧
        Verifier.main C os = if C.VerifyASN1 key hash sigBytes = true then Verifier.accept
                             else Verifier.reject) ∨
    ((Verifier.main C os).aborted ∧ (Verifier.main C os).stdout = [] ∧
      ¬ ∃ sigBytes key hash, Verifier.wellFormed os sig pub message sigBytes key hash) := by
  cases hs : Base64.DecodeString sig with
  | error e =>
    right
    have hm : Verifier.main C os
        = ⟨[], .logPanic (str "illegal base64 data at input byte")⟩ := by
      unfold Verifier.main
      simp only [hargs, mustDecode_eq, hs]
    refine ⟨Or.inl ⟨_, by rw [hm]⟩, by rw [hm], ?_⟩
    rintro ⟨sb, k, h, hw, _⟩
    rw [hs] at hw
    cases hw
  | ok sigBytes =>
    cases hp : Base64.DecodeString pub with
    | error e =>
      right
      have hm : Verifier.main C os
          = ⟨[], .logPanic (str "illegal base64 data at input byte")⟩ := by
        unfold Verifier.main
        simp only [hargs, mustDecode_eq, hs, hp]
      refine ⟨Or.inl ⟨_, by rw [hm]⟩, by rw [hm], ?_⟩
      rintro ⟨sb, k, h, _, ⟨pb, p, rest, hw, _⟩, _⟩
      rw [hp] at hw
      cases hw
    | ok pubBytes =>
      cases hd : Pem.Decode pubBytes with
      | none =>
        right
        have hm : Verifier.main C os
            = ⟨[], .runtimePanic "invalid memory address or nil pointer dereference"⟩ := by
          unfold Verifier.main
          simp only [hargs, mustDecode_eq, hs, hp, Verifier.parseKey, hd]
        refine ⟨Or.inr ⟨_, by rw [hm]⟩, by rw [hm], ?_⟩
        rintro ⟨sb, k, h, _, ⟨pb, p, rest, hw, hw2, _⟩, _⟩
        rw [hp] at hw
        cases hw
        rw [hd] at hw2
        cases hw2
      | some pr =>
        obtain ⟨p, rest⟩ := pr
        by_cases ht : p.type = str "PUBLIC KEY"
        · cases hk : X509.ParsePKIXPublicKey p.bytes with
          | error e =>
            right
            have hm : Verifier.main C os = ⟨[], .logPanic (str e.msg)⟩ := by
              unfold Verifier.main
              simp only [hargs, mustDecode_eq, hs, hp, Verifier.parseKey, hd, ht, hk,
                bne_self_eq_false, Bool.false_eq_true, ite_false]
            refine ⟨Or.inl ⟨_, by rw [hm]⟩, by rw [hm], ?_⟩
            rintro ⟨sb, k, h, _, ⟨pb, p2, rest2, hw, hw2, _, hw3⟩, _⟩
            rw [hp] at hw
            cases hw
            rw [hd] at hw2
            cases hw2
            rw [hk] at hw3
            cases hw3
          | ok key =>
            have hother : (∀ k0, key ≠ .ecdsa k0) →
                (Verifier.main C os).aborted ∧ (Verifier.main C os).stdout = [] ∧
                ¬ ∃ sigBytes key hash,
                  Verifier.wellFormed os sig pub message sigBytes key hash := by
              intro hne
              have hm : Verifier.main C os
                  = ⟨[], .logPanic (str "unsupported public key format: %!s(<nil>)")⟩ := by
                unfold Verifier.main
                simp only [hargs, mustDecode_eq, hs, hp, Verifier.parseKey, hd, ht, hk,
                  bne_self_eq_false, Bool.false_eq_true, ite_false]
              refine ⟨Or.inl ⟨_, by rw [hm]⟩, by rw [hm], ?_⟩
              rintro ⟨sb, k, h, _, ⟨pb, p2, rest2, hw, hw2, _, hw3⟩, _⟩
              rw [hp] at hw
              cases hw
              rw [hd] at hw2
              cases hw2
              rw [hk] at hw3
              cases hw3
              exact hne k rfl
            cases key with
            | rsa n e => exact Or.inr (hother (fun k0 h => by cases h))
            | dsa p0 q g y => exact Or.inr (hother (fun k0 h => by cases h))
            | ed25519 k0 => exact Or.inr (hother (fun k0 h => by cases h))
            | ecdsa k =>
              have hpk : Verifier.parseKey pubBytes = .ok k := by
                simp only [Verifier.parseKey, hd, ht, hk, bne_self_eq_false, Bool.false_eq_true,
                  ite_false]
              have hmain := main_of_decoded C os prog sig pub message sigBytes pubBytes k hargs
                (by rw [mustDecode_eq, hs]) (by rw [mustDecode_eq, hp]) hpk
              cases hh : Verifier.hashMessage os message with
              | error x =>
                right
                rw [hh] at hmain
                obtain ⟨f, e, _, _, hx⟩ := hashMessage_error os message x hh
                refine ⟨Or.inl ⟨_, by rw [hmain, hx]⟩, by rw [hmain], ?_⟩
                rintro ⟨sb, k2, h, _, _, hw⟩
                rw [hh] at hw
                cases hw
              | ok hash =>
                left
                rw [hh] at hmain
                exact ⟨sigBytes, k, hash, ⟨hs, ⟨pubBytes, p, rest, hp, hd, ht, hk⟩, hh⟩, hmain⟩
        · right
          have hm : Verifier.main C os
              = ⟨[], .logPanic (str "unsupported public key type: " ++ p.type)⟩ := by
            unfold Verifier.main
            have hb : (p.type != str "PUBLIC KEY") = true := by
              simp only [bne_iff_ne, ne_eq]
              exact ht
            simp only [hargs, mustDecode_eq, hs, hp, Verifier.parseKey, hd, hb, ite_true]
          refine ⟨Or.inl ⟨_, by rw [hm]⟩, by rw [hm], ?_⟩
          rintro ⟨sb, k, h, _, ⟨pb, p2, rest2, hw, hw2, hw3, _⟩, _⟩
          rw [hp] at hw
          cases hw
          rw [hd] at hw2
          cases hw2
          exact ht hw3
theorem wellFormed_unique (os : OS) (sig pub message s1 s2 : Bytes) (k1 k2 : Ecdsa.PublicKey)
    (h1 h2 : Bytes) (w1 : Verifier.wellFormed os sig pub message s1 k1 h1)
    (w2 : Verifier.wellFormed os sig pub message s2 k2 h2) : s1 = s2 ∧ k1 = k2 ∧ h1 = h2 := by
  obtain ⟨a1, ⟨pb1, p1, r1, b1, c1, _, d1⟩, e1⟩ := w1
  obtain ⟨a2, ⟨pb2, p2, r2, b2, c2, _, d2⟩, e2⟩ := w2
  rw [a1] at a2
  rw [b1] at b2
  cases a2
  cases b2
  rw [c1] at c2
  cases c2
  rw [d1] at d2
  cases d2
  rw [e1] at e2
  cases e2
  exact ⟨rfl, rfl, rfl⟩

theorem accept_ne_reject : Verifier.accept ≠ Verifier.reject := by decide

theorem accept_not_aborted : ¬ Verifier.accept.aborted := by
  rintro (⟨m, h⟩ | ⟨m, h⟩) <;> cases h

theorem reject_not_aborted : ¬ Verifier.reject.aborted := by
  rintro (⟨m, h⟩ | ⟨m, h⟩) <;> cases h

/-- C2: on three arguments the verifier ends in exactly one of three outcomes.  It accepts (the
line `valid signature`, exit status 0) exactly when every decoding step succeeds and the ECDSA
check of the signature over the digest of the resolved message is true; it rejects
(`log.Fatal("invalid signature")`, exit status 1, no panic) exactly when every decoding step
succeeds and the check is false; it aborts (a panic, exit status 2, nothing on standard output)
exactly when a base64 decoding, the test of the PEM block and its type, the parsing of the key
as an ECDSA key, or the reading of the message fails.  The digest of a successful decoding is
the SHA-256 of the bytes that the message argument resolves to. -/
theorem verifier_outcomes (C : Crypto) (os : OS) (prog sig pub message : Bytes)
    (hargs : os.Args = [prog, sig, pub, message]) :
    (Verifier.main C os = Verifier.accept ↔
      ∃ sigBytes key hash, Verifier.wellFormed os sig pub message sigBytes key hash ∧
        C.VerifyASN1 key hash sigBytes = true) ∧
    (Verifier.main C os = Verifier.reject ↔
      ∃ sigBytes key hash, Verifier.wellFormed os sig pub message sigBytes key hash ∧
        C.VerifyASN1 key hash sigBytes = false) ∧
    ((Verifier.main C os).aborted ↔
      ¬ ∃ sigBytes key hash, Verifier.wellFormed os sig pub message sigBytes key hash) ∧
    (Verifier.main C os = Verifier.accept ∨ Verifier.main C os = Verifier.reject
      ∨ (Verifier.main C os).aborted) ∧
    ((Verifier.main C os).aborted →
      (Verifier.main C os).stdout = [] ∧ (Verifier.main C os).exit.status = 2) ∧
    Verifier.accept ≠ Verifier.reject ∧ ¬ Verifier.accept.aborted ∧ ¬ Verifier.reject.aborted ∧
    Verifier.accept.exit.status = 0 ∧ Verifier.reject.exit.status = 1 ∧
    (∀ sigBytes key hash, Verifier.wellFormed os sig pub message sigBytes key hash →
      ∃ b, Verifier.resolves os message b ∧ hash = Sha256.checkSum b) := by
  have hdig : ∀ sigBytes key hash, Verifier.wellFormed os sig pub message sigBytes key hash →
      ∃ b, Verifier.resolves os message b ∧ hash = Sha256.checkSum b :=
    fun _ _ hash hw => resolves_of_hashMessage os message hash hw.2.2
  have hstatus : ∀ r : Run, r.aborted → r.exit.status = 2 := by
    rintro r (⟨m, h⟩ | ⟨m, h⟩) <;> rw [h] <;> rfl
  rcases main_trichotomy C os prog sig pub message hargs with
    ⟨sb, k, h, hw, hm⟩ | ⟨hab, hout, hnw⟩
  · cases hv : C.VerifyASN1 k h sb with
    | true =>
      rw [hv] at hm
      simp only [ite_true] at hm
      refine ⟨⟨fun _ => ⟨sb, k, h, hw, hv⟩, fun _ => hm⟩, ⟨?_, ?_⟩, ⟨?_, ?_⟩, Or.inl hm, ?_,
        accept_ne_reject, accept_not_aborted, reject_not_aborted, rfl, rfl, hdig⟩
      · intro he
        rw [hm] at he
        exact absurd he accept_ne_reject
      · rintro ⟨sb2, k2, h2, hw2, hv2⟩
        obtain ⟨rfl, rfl, rfl⟩ := wellFormed_unique _ _ _ _ _ _ _ _ _ _ hw hw2
        rw [hv] at hv2
        cases hv2
      · intro ha
        rw [hm] at ha
        exact absurd ha accept_not_aborted
      · intro hn
        exact absurd ⟨sb, k, h, hw⟩ hn
      · intro ha
        rw [hm] at ha
        exact absurd ha accept_not_aborted
    | false =>
      rw [hv] at hm
      simp only [Bool.false_eq_true, ite_false] at hm
      refine ⟨⟨?_, ?_⟩, ⟨fun _ => ⟨sb, k, h, hw, hv⟩, fun _ => hm⟩, ⟨?_, ?_⟩, Or.inr (Or.inl hm),
        ?_, accept_ne_reject, accept_not_aborted, reject_not_aborted, rfl, rfl, hdig⟩
      · intro he
        rw [hm] at he
        exact absurd he.symm accept_ne_reject
      · rintro ⟨sb2, k2, h2, hw2, hv2⟩
        obtain ⟨rfl, rfl, rfl⟩ := wellFormed_unique _ _ _ _ _ _ _ _ _ _ hw hw2
        rw [hv] at hv2
        cases hv2
      · intro ha
        rw [hm] at ha
        exact absurd ha reject_not_aborted
      · intro hn
        exact absurd ⟨sb, k, h, hw⟩ hn
      · intro ha
        rw [hm] at ha
        exact absurd ha reject_not_aborted
  · refine ⟨⟨?_, ?_⟩, ⟨?_, ?_⟩, ⟨fun _ => hnw, fun _ => hab⟩, Or.inr (Or.inr hab),
      fun _ => ⟨hout, hstatus _ hab⟩, accept_ne_reject, accept_not_aborted, reject_not_aborted,
      rfl, rfl, hdig⟩
    · intro he
      rw [he] at hab
      exact absurd hab accept_not_aborted
    · rintro ⟨sb, k, h, hw, _⟩
      exact absurd ⟨sb, k, h, hw⟩ hnw
    · intro he
      rw [he] at hab
      exact absurd hab reject_not_aborted
    · rintro ⟨sb, k, h, hw, _⟩
      exact absurd ⟨sb, k, h, hw⟩ hnw

set_option maxRecDepth 1000000 in
/-- C2 on an example: with the key of the base point of P-256, the digest of `hello` as the
signature and the literal message `hello`, every step succeeds and the verifier accepts. -/
theorem verifier_outcomes_example :
    Verifier.main Example.crypto
      ⟨[str "verifier", Base64.EncodeToString (Sha256.checkSum (str "hello")), Example.p256Text,
        str "hello"], Example.noFiles, Example.noEnv⟩ = Verifier.accept := by
  have h := verifier_outcomes Example.crypto
    ⟨[str "verifier", Base64.EncodeToString (Sha256.checkSum (str "hello")), Example.p256Text,
      str "hello"], Example.noFiles, Example.noEnv⟩ (str "verifier")
    (Base64.EncodeToString (Sha256.checkSum (str "hello"))) Example.p256Text (str "hello") rfl
  refine h.1.mpr ⟨Sha256.checkSum (str "hello"), Example.basePoint,
    Sha256.checkSum (str "hello"), ⟨?_, ⟨Example.p256Pem, ?_⟩, ?_⟩, ?_⟩
  · exact Base64.DecodeString_EncodeToString _
  · exact ⟨{ type := str "PUBLIC KEY", headers := [], bytes :=
      [48, 89, 48, 19, 6, 7, 42, 134, 72, 206, 61, 2, 1, 6, 8, 42, 134, 72, 206, 61, 3, 1, 7, 3, 66, 0]
        ++ Curve.P256.Marshal Example.basePoint.X Example.basePoint.Y }, [],
      by decide, by decide, by decide, by decide⟩
  · decide
  · decide

/-! ## C3: the round trip of the public key -/

theorem mustDecode_EncodeToString (b : Bytes) :
    Verifier.mustDecode (Base64.EncodeToString b) = .ok b := by
  rw [mustDecode_eq, Base64.DecodeString_EncodeToString]

theorem parseKey_EncodeToMemory (pubBytes : Bytes) (pub : Ecdsa.PublicKey)
    (hp : X509.ParsePKIXPublicKey pubBytes = .ok (.ecdsa pub)) :
    Verifier.parseKey
        (Pem.EncodeToMemory { type := str "PUBLIC KEY", headers := [], bytes := pubBytes })
      = .ok pub := by
  unfold Verifier.parseKey
  rw [Pem.Decode_EncodeToMemory]
  simp only [bne_self_eq_false, Bool.false_eq_true, ite_false, hp]

theorem publicKey_eta (pub : Ecdsa.PublicKey) (hc : pub.Curve = .P256) :
    ({ Curve := .P256, X := pub.X, Y := pub.Y } : Ecdsa.PublicKey) = pub := by
  cases pub
  simp only at hc
  subst hc
  rfl

/-- PKIX parsing inverts PKIX marshalling on the points of P-256. -/
theorem Parse_Marshal_P256 (pub : Ecdsa.PublicKey) (hc : pub.Curve = .P256)
    (hx : pub.X < Curve.P256.P) (hy : pub.Y < Curve.P256.P)
    (hon : Curve.P256.IsOnCurve pub.X pub.Y = true) :
    ∃ pubBytes, X509.MarshalPKIXPublicKey pub = .ok pubBytes ∧
      X509.ParsePKIXPublicKey pubBytes = .ok (.ecdsa pub) := by
  have hm := X509.Marshal_P256 pub hc hx hy
  have hp := X509.Parse_P256 pub.X pub.Y hx hy hon
  rw [publicKey_eta pub hc] at hp
  exact ⟨_, hm, hp⟩

/-- The encoding of the signer and the decoding of the verifier, for a point of P-256. -/
theorem key_round_trip (pub : Ecdsa.PublicKey) (hc : pub.Curve = .P256)
    (hx : pub.X < Curve.P256.P) (hy : pub.Y < Curve.P256.P)
    (hon : Curve.P256.IsOnCurve pub.X pub.Y = true) :
    ∃ pubBytes, X509.MarshalPKIXPublicKey pub = .ok pubBytes ∧
      Verifier.mustDecode (Base64.EncodeToString
          (Pem.EncodeToMemory { type := str "PUBLIC KEY", headers := [], bytes := pubBytes }))
        = .ok (Pem.EncodeToMemory { type := str "PUBLIC KEY", headers := [], bytes := pubBytes }) ∧
      Verifier.parseKey
          (Pem.EncodeToMemory { type := str "PUBLIC KEY", headers := [], bytes := pubBytes })
        = .ok pub := by
  obtain ⟨pubBytes, h1, h2⟩ := Parse_Marshal_P256 pub hc hx hy hon
  exact ⟨pubBytes, h1, mustDecode_EncodeToString _, parseKey_EncodeToMemory pubBytes pub h2⟩

/-- C3: for every public key that is a point of P-256, the signer's encoding (PKIX, PEM of
type `PUBLIC KEY`, standard base64) succeeds, and the verifier's decoding of that text (base64,
PEM with the type test, PKIX parsing, the assertion that the key is an ECDSA key) succeeds and
gives the same key: the same curve and the same coordinates. -/
theorem public_key_round_trip (pub : Ecdsa.PublicKey) (hc : pub.Curve = .P256)
    (hx : pub.X < Curve.P256.P) (hy : pub.Y < Curve.P256.P)
    (hon : Curve.P256.IsOnCurve pub.X pub.Y = true) :
    ∃ pubBytes, X509.MarshalPKIXPublicKey pub = .ok pubBytes ∧
      ∃ decoded, Verifier.mustDecode (Base64.EncodeToString
          (Pem.EncodeToMemory { type := str "PUBLIC KEY", headers := [], bytes := pubBytes }))
        = .ok decoded ∧ Verifier.parseKey decoded = .ok pub := by
  obtain ⟨pubBytes, h1, h2, h3⟩ := key_round_trip pub hc hx hy hon
  exact ⟨pubBytes, h1, _, h2, h3⟩

set_option maxRecDepth 1000000 in
/-- C3 at the base point of P-256. -/
theorem public_key_round_trip_base_point :
    Example.basePoint.Curve = .P256 ∧ Example.basePoint.X < Curve.P256.P ∧
    Example.basePoint.Y < Curve.P256.P ∧
    Curve.P256.IsOnCurve Example.basePoint.X Example.basePoint.Y = true ∧
    ∃ pubBytes, X509.MarshalPKIXPublicKey Example.basePoint = .ok pubBytes ∧
      ∃ decoded, Verifier.mustDecode (Base64.EncodeToString
          (Pem.EncodeToMemory { type := str "PUBLIC KEY", headers := [], bytes := pubBytes }))
        = .ok decoded ∧ Verifier.parseKey decoded = .ok Example.basePoint :=
  ⟨rfl, by decide, by decide, by decide,
    public_key_round_trip Example.basePoint rfl (by decide) (by decide) (by decide)⟩

/-! ## C6: which keys the verifier accepts -/

/-- C6, as amended: a public-key argument whose PEM block of type `PUBLIC KEY` parses to a key
that is not an ECDSA key ends key decoding in the panic `unsupported public key format`, and
the verifier aborts with it before the message is read and before any signature check; a block
that parses to an ECDSA key gives that key, on whichever of the curves P-224, P-256, P-384 and
P-521 it lies: the curve is not tested. -/
theorem key_algorithm_checked (pubBytes : Bytes) (p : Pem.Block) (rest : Bytes)
    (hd : Pem.Decode pubBytes = some (p, rest)) (ht : p.type = str "PUBLIC KEY") :
    (∀ key, X509.ParsePKIXPublicKey p.bytes = .ok key → (∀ k, key ≠ .ecdsa k) →
      Verifier.parseKey pubBytes
        = .error (.logPanic (str "unsupported public key format: %!s(<nil>)")) ∧
      ∀ (C : Crypto) (os : OS) (prog sig pub message sigBytes : Bytes),
        os.Args = [prog, sig, pub, message] → Verifier.mustDecode sig = .ok sigBytes →
        Verifier.mustDecode pub = .ok pubBytes →
        Verifier.main C os
          = ⟨[], .logPanic (str "unsupported public key format: %!s(<nil>)")⟩) ∧
    (∀ k, X509.ParsePKIXPublicKey p.bytes = .ok (.ecdsa k) →
      Verifier.parseKey pubBytes = .ok k ∧
      (k.Curve = .P224 ∨ k.Curve = .P256 ∨ k.Curve = .P384 ∨ k.Curve = .P521)) := by
  constructor
  · intro key hk hne
    have hpk : Verifier.parseKey pubBytes
        = .error (.logPanic (str "unsupported public key format: %!s(<nil>)")) := by
      simp only [Verifier.parseKey, hd, ht, hk, bne_self_eq_false, Bool.false_eq_true, ite_false]
    refine ⟨hpk, ?_⟩
    intro C os prog sig pub message sigBytes hargs hsig hpub
    unfold Verifier.main
    simp only [hargs, hsig, hpub, hpk]
  · intro k hk
    constructor
    · simp only [Verifier.parseKey, hd, ht, hk, bne_self_eq_false, Bool.false_eq_true, ite_false]
    · cases hcv : k.Curve <;> simp

set_option maxRecDepth 1000000 in
/-- C6, as amended, on an example: an Ed25519 key makes the verifier panic. -/
theorem key_algorithm_checked_example :
    Pem.Decode Example.ed25519Pem
      = some ({ type := str "PUBLIC KEY", headers := [], bytes := Example.ed25519Der }, []) ∧
    Verifier.main Example.crypto
      ⟨[str "verifier", str "", Example.ed25519Text, str "hello"], Example.noFiles, Example.noEnv⟩
      = ⟨[], .logPanic (str "unsupported public key format: %!s(<nil>)")⟩ := by
  have hd : Pem.Decode Example.ed25519Pem
      = some ({ type := str "PUBLIC KEY", headers := [], bytes := Example.ed25519Der }, []) := by
    decide
  have h := (key_algorithm_checked Example.ed25519Pem
    { type := str "PUBLIC KEY", headers := [], bytes := Example.ed25519Der } [] hd rfl).1
    (.ed25519 (Example.ed25519Der.drop 12)) (by decide) (fun k hk => by cases hk)
  exact ⟨hd, h.2 Example.crypto _ (str "verifier") (str "") Example.ed25519Text (str "hello") []
    rfl (by decide) (by decide)⟩

set_option exponentiation.threshold 600 in
set_option maxRecDepth 1000000 in
/-- C6, as stated, fails: the public-key argument of the base point of P-384 is decoded to an
ECDSA key on P-384, and the verifier reaches Accept with it. -/
theorem p384_key_is_used :
    (Verifier.mustDecode Example.p384Text).bind Verifier.parseKey = .ok Example.basePoint384 ∧
    Example.basePoint384.Curve = .P384 ∧
    Verifier.main Example.crypto
      ⟨[str "verifier", Base64.EncodeToString (Sha256.checkSum (str "hello")), Example.p384Text,
        str "hello"], Example.noFiles, Example.noEnv⟩ = Verifier.accept := by
  decide

/-! ## The runs of the signer -/

theorem logVerifierInfo_cases (os : OS) (p : Bytes) :
    (∃ out x, Action.logVerifierInfo os p = (out, .error x) ∧
      ((∃ msg, x = .logFatal msg) ∨ os.Args = [])) ∨
    (∃ f, os.Args.head?.map os.Lookup = some (.openable f) ∧ f.err = none ∧
      Action.logVerifierInfo os p =
        ([str "Starting verifier with:  " ++ p ++ str "\n",
          str "Self hash:  " ++ Hex.EncodeToString (Sha256.checkSum f.contents) ++ str "\n"],
         .ok (Hex.EncodeToString (Sha256.checkSum f.contents)))) := by
  unfold Action.logVerifierInfo
  cases ha : os.Args with
  | nil => exact Or.inl ⟨_, _, rfl, Or.inr rfl⟩
  | cons self rest =>
    simp only [OS.Open]
    cases hl : os.Lookup self with
    | missing e => exact Or.inl ⟨_, _, rfl, Or.inl ⟨_, rfl⟩⟩
    | denied e => exact Or.inl ⟨_, _, rfl, Or.inl ⟨_, rfl⟩⟩
    | openable f =>
      have hc := ioCopy_New f
      simp only
      cases hi : ioCopy Sha256.New f with
      | mk h1 e =>
        rw [hi] at hc
        simp only at hc
        cases e with
        | some err => exact Or.inl ⟨_, _, rfl, Or.inl ⟨_, rfl⟩⟩
        | none =>
          right
          refine ⟨f, by simp [hl], hc.2.symm, ?_⟩
          simp only [hc.1]
          rfl

theorem sign_eq (C : Crypto) (rand : C.Rand) (b : Bytes) (p : Ecdsa.PrivateKey) :
    Action.sign C rand b p =
      match C.SignASN1 rand p (Sha256.checkSum b) with
      | .error err => .error (.logFatal (str err.msg))
      | .ok (sig, rand1) =>
        .ok ((Base64.EncodeToString sig, Hex.EncodeToString (Sha256.checkSum b)), rand1) := by
  unfold Action.sign
  simp only [Sha256.New, Sha256.Hasher.Write, Sha256.Hasher.Sum, List.nil_append]

/-- The shape of every run of the signer: the informational lines, then a prefix of the five
outputs, and all five exactly when `main` returns; a run that returns has read the artifact
and signed its digest and the environment text with the generated key. -/
theorem action_main_shape (C : Crypto) (os : OS) (rand : C.Rand) :
    ((Action.main C os rand).exit ≠ .returned ∧
      (∃ msg, (Action.main C os rand).exit = .logFatal msg) ∧
      ∃ info pk sig sha n, (n = 0 ∨ n = 1 ∨ n = 3) ∧
        (Action.main C os rand).stdout
          = info ++ Action.published ((Action.outputs pk sig sha [] []).take n) ∧
        (info = [] ∨ info = (Action.logVerifierInfo os (os.Args.getD 1 [])).1)) ∨
    (∃ info priv rand1 pubBytes artifact sigBytes rand2 envSigBytes rand3 selfHash,
      C.GenerateKey .P256 rand = .ok (priv, rand1) ∧
      X509.MarshalPKIXPublicKey priv.PublicKey = .ok pubBytes ∧
      ReadFile os (os.Args.getD 1 []) = .ok artifact ∧
      C.SignASN1 rand1 priv (Sha256.checkSum artifact) = .ok (sigBytes, rand2) ∧
      C.SignASN1 rand2 priv (Sha256.checkSum (Base64.EncodeToString
        (Action.envelope.Marshal
          { RunUrl := Action.runUrl os, GitHubSha := os.Getenv (str "GITHUB_SHA"),
            ArtifactSha := Hex.EncodeToString (Sha256.checkSum artifact),
            VerifierSha := selfHash }))) = .ok (envSigBytes, rand3) ∧
      info = (Action.logVerifierInfo os (os.Args.getD 1 [])).1 ∧
      Action.main C os rand =
        ⟨info ++ Action.published (Action.outputs
          (Base64.EncodeToString (Pem.EncodeToMemory
            { type := str "PUBLIC KEY", headers := [], bytes := pubBytes }))
          (Base64.EncodeToString sigBytes)
          (Hex.EncodeToString (Sha256.checkSum artifact))
          (Base64.EncodeToString (Action.envelope.Marshal
            { RunUrl := Action.runUrl os, GitHubSha := os.Getenv (str "GITHUB_SHA"),
              ArtifactSha := Hex.EncodeToString (Sha256.checkSum artifact),
              VerifierSha := selfHash }))
          (Base64.EncodeToString envSigBytes)), .returned⟩) := by
  unfold Action.main
  by_cases hlen : os.Args.length = 2
  · have hb : (os.Args.length != 2) = false := by simp [hlen]
    simp only [hb, Bool.false_eq_true, ite_false]
    rcases logVerifierInfo_cases os (os.Args.getD 1 []) with
      ⟨out, x, hv, hx⟩ | ⟨f, hf, hfe, hv⟩
    · left
      have hx2 : ∃ msg, x = .logFatal msg := by
        rcases hx with h | h
        · exact h
        · rw [h] at hlen
          cases hlen
      obtain ⟨msg, rfl⟩ := hx2
      simp only [hv]
      refine ⟨by simp, ⟨_, rfl⟩, out, [], [], [], 0, Or.inl rfl, ?_, Or.inr rfl⟩
      simp [Action.published]
    · simp only [hv]
      cases hg : C.GenerateKey .P256 rand with
      | error err =>
        left
        simp only
        refine ⟨by simp, ⟨_, rfl⟩, _, [], [], [], 0, Or.inl rfl, ?_, Or.inr rfl⟩
        simp [Action.published]
      | ok kr =>
        obtain ⟨priv, rand1⟩ := kr
        simp only
        cases hmar : X509.MarshalPKIXPublicKey priv.PublicKey with
        | error err =>
          left
          simp only
          refine ⟨by simp, ⟨_, rfl⟩, _, [], [], [], 0, Or.inl rfl, ?_, Or.inr rfl⟩
          simp [Action.published]
        | ok pubBytes =>
          simp only
          cases hr : ReadFile os (os.Args.getD 1 []) with
          | error err =>
            left
            simp only
            refine ⟨by simp, ⟨_, rfl⟩, _, (Base64.EncodeToString (Pem.EncodeToMemory
                { type := str "PUBLIC KEY", headers := [], bytes := pubBytes })),
                [], [], 1, Or.inr (Or.inl rfl), ?_, Or.inr rfl⟩
            simp [Action.published, Action.outputs]
          | ok artifact =>
            simp only [sign_eq]
            cases hs1 : C.SignASN1 rand1 priv (Sha256.checkSum artifact) with
            | error err =>
              left
              simp only
              refine ⟨by simp, ⟨_, rfl⟩, _, (Base64.EncodeToString (Pem.EncodeToMemory
                { type := str "PUBLIC KEY", headers := [], bytes := pubBytes })),
                [], [], 1, Or.inr (Or.inl rfl), ?_, Or.inr rfl⟩
              simp [Action.published, Action.outputs]
            | ok sr =>
              obtain ⟨sigBytes, rand2⟩ := sr
              simp only
              cases hs2 : C.SignASN1 rand2 priv (Sha256.checkSum (Base64.EncodeToString
                  (Action.envelope.Marshal
                    { RunUrl := Action.runUrl os, GitHubSha := os.Getenv (str "GITHUB_SHA"),
                      ArtifactSha := Hex.EncodeToString (Sha256.checkSum artifact),
                      VerifierSha := Hex.EncodeToString (Sha256.checkSum f.contents) }))) with
              | error err =>
                left
                simp only
                refine ⟨by simp, ⟨_, rfl⟩, _, (Base64.EncodeToString (Pem.EncodeToMemory
                { type := str "PUBLIC KEY", headers := [], bytes := pubBytes })),
                  Base64.EncodeToString sigBytes, Hex.EncodeToString (Sha256.checkSum artifact), 3,
                  Or.inr (Or.inr rfl), ?_, Or.inr rfl⟩
                simp [Action.published, Action.outputs]
              | ok er =>
                obtain ⟨envSigBytes, rand3⟩ := er
                right
                simp only
                refine ⟨_, priv, rand1, pubBytes, artifact, sigBytes, rand2, envSigBytes, rand3,
                  Hex.EncodeToString (Sha256.checkSum f.contents), rfl, hmar, rfl, hs1, hs2, rfl,
                  ?_⟩
                simp [Action.published, Action.outputs]
  · have hb : (os.Args.length != 2) = true := by simp [hlen]
    simp only [hb, ite_true]
    left
    refine ⟨by simp, ⟨_, rfl⟩, [], [], [], [], 0, Or.inl rfl, ?_, Or.inl rfl⟩
    rfl

/-! ## C1: published signatures verify -/

/-- C1: under the contract of `crypto/ecdsa`, every signature that a signing run publishes is
accepted by the verifier under the `publickey` the run publishes: the `signature` output when
the message argument resolves to the bytes of the artifact that the run read, and the
`environment_signature` output when the message argument is the published `environment` text
and names no file that opens, so that it is hashed as a literal. -/
theorem published_signatures_accepted (C : Crypto) (hC : C.Sound) (os : OS) (rand : C.Rand)
    (hret : (Action.main C os rand).exit = .returned) :
    ∃ info publickey signature sha256 environment environment_signature artifact,
      (Action.main C os rand).stdout = info ++ Action.published
        (Action.outputs publickey signature sha256 environment environment_signature) ∧
      ReadFile os (os.Args.getD 1 []) = .ok artifact ∧
      (∀ (vos : OS) (prog message : Bytes), vos.Args = [prog, signature, publickey, message] →
        Verifier.resolves vos message artifact → Verifier.main C vos = Verifier.accept) ∧
      (∀ (vos : OS) (prog : Bytes),
        vos.Args = [prog, environment_signature, publickey, environment] →
        (∀ f, vos.Lookup environment ≠ .openable f) → Verifier.main C vos = Verifier.accept) := by
  rcases action_main_shape C os rand with ⟨hne, _⟩ |
    ⟨info, priv, rand1, pubBytes, artifact, sigBytes, rand2, envSigBytes, rand3, selfHash,
      hg, hmar, hread, hs1, hs2, _, hmain⟩
  · exact absurd hret hne
  · obtain ⟨hcurve, hx, hy, hon⟩ := hC.key_valid .P256 rand priv rand1 hg
    obtain ⟨pubBytes2, hmar2, hdec, hkey⟩ := key_round_trip priv.PublicKey hcurve hx hy hon
    rw [hmar] at hmar2
    cases hmar2
    refine ⟨info, _, _, _, _, _, artifact, by rw [hmain], hread, ?_, ?_⟩
    · intro vos prog message hargs hres
      rw [main_of_decoded C vos prog _ _ message sigBytes _ priv.PublicKey hargs
        (mustDecode_EncodeToString sigBytes) hdec hkey, hashMessage_resolves vos message artifact hres]
      simp only [hC.sign_verify .P256 rand priv rand1 hg rand1 _ sigBytes rand2 hs1, ite_true]
    · intro vos prog hargs hno
      rw [main_of_decoded C vos prog _ _ _ envSigBytes _ priv.PublicKey hargs
        (mustDecode_EncodeToString envSigBytes) hdec hkey, hashMessage_not_openable vos _ hno]
      simp only [hC.sign_verify .P256 rand priv rand1 hg rand2 _ envSigBytes rand3 hs2, ite_true]

theorem example_crypto_sound : Example.crypto.Sound := by
  constructor
  · intro c rand priv rand1 h
    simp only [Example.crypto] at h
    split at h
    · rename_i hc
      cases h
      subst hc
      exact ⟨rfl, by decide, by decide, by decide⟩
    · cases h
  · intro c rand0 priv rand1 _ rand hash sig rand2 h
    simp only [Example.crypto] at h
    cases h
    simp [Example.crypto]

set_option maxRecDepth 1000000 in
/-- C1 on an example: the stand-in for ECDSA meets the contract, the run on `artifact.txt`
returns, and the theorem applies to it. -/
theorem published_signatures_accepted_example :
    Example.crypto.Sound ∧
    (Action.main Example.crypto
      ⟨[str "verifyme", str "artifact.txt"], Example.withArtifact, Example.noEnv⟩ ()).exit
        = .returned ∧
    ∃ info publickey signature sha256 environment environment_signature artifact,
      (Action.main Example.crypto
        ⟨[str "verifyme", str "artifact.txt"], Example.withArtifact, Example.noEnv⟩ ()).stdout
        = info ++ Action.published
          (Action.outputs publickey signature sha256 environment environment_signature) ∧
      ReadFile ⟨[str "verifyme", str "artifact.txt"], Example.withArtifact, Example.noEnv⟩
        (str "artifact.txt") = .ok artifact ∧
      (∀ (vos : OS) (prog message : Bytes), vos.Args = [prog, signature, publickey, message] →
        Verifier.resolves vos message artifact →
        Verifier.main Example.crypto vos = Verifier.accept) ∧
      (∀ (vos : OS) (prog : Bytes),
        vos.Args = [prog, environment_signature, publickey, environment] →
        (∀ f, vos.Lookup environment ≠ .openable f) →
        Verifier.main Example.crypto vos = Verifier.accept) :=
  ⟨example_crypto_sound, by decide,
    published_signatures_accepted Example.crypto example_crypto_sound
      ⟨[str "verifyme", str "artifact.txt"], Example.withArtifact, Example.noEnv⟩ () (by decide)⟩

/-! ## C7: what a failing signing run has emitted -/

theorem minimal_main_shape (C : Crypto) (os : OS) (rand : C.Rand) :
    ∃ pk sig n,
      (Minimal.main C os rand).stdout
        = ([str "::set-output name=publickey::" ++ pk ++ str "\n",
            str "::set-output name=signature::" ++ sig ++ str "\n"]).take n ∧
      ((Minimal.main C os rand).exit = .returned → n = 2) ∧
      ((Minimal.main C os rand).exit ≠ .returned → n = 0 ∨ n = 1) := by
  unfold Minimal.main
  cases ha : os.Args with
  | nil => exact ⟨[], [], 0, rfl, by simp, by simp⟩
  | cons a0 t =>
    cases t with
    | nil => exact ⟨[], [], 0, rfl, by simp, by simp⟩
    | cons filepath t2 =>
      simp only
      cases hg : C.GenerateKey .P256 rand with
      | error err => exact ⟨[], [], 0, rfl, by simp, by simp⟩
      | ok kr =>
        obtain ⟨priv, rand1⟩ := kr
        simp only
        cases hmar : X509.MarshalPKIXPublicKey priv.PublicKey with
        | error err => exact ⟨[], [], 0, rfl, by simp, by simp⟩
        | ok pubBytes =>
          simp only
          cases hr : ReadFile os filepath with
          | error err => exact ⟨_, [], 1, rfl, by simp, by simp⟩
          | ok b =>
            simp only
            cases hs : C.SignASN1 rand1 priv (Sha256.New.Write b).Sum with
            | error err => exact ⟨_, [], 1, rfl, by simp, by simp⟩
            | ok sr =>
              obtain ⟨sig1Bytes, rand2⟩ := sr
              exact ⟨_, _, 2, rfl, by simp, by simp⟩

/-- C7, as amended: a signing run that ends in a fatal error has emitted a prefix of the
outputs in the order of publication, after the informational lines: none of them, or
`publickey` alone, or `publickey`, `signature` and `sha256`; a run emits all five outputs
exactly when `main` returns.  The minimal signer of `main.go` likewise emits nothing or
`publickey` alone before a fatal error, and both of its outputs when it returns. -/
theorem outputs_are_a_prefix (C : Crypto) (os : OS) (rand : C.Rand) :
    (∃ info pk sig sha env envsig n,
      (Action.main C os rand).stdout
        = info ++ Action.published ((Action.outputs pk sig sha env envsig).take n) ∧
      (info = [] ∨ info = (Action.logVerifierInfo os (os.Args.getD 1 [])).1) ∧
      ((Action.main C os rand).exit = .returned → n = 5) ∧
      ((Action.main C os rand).exit ≠ .returned →
        (n = 0 ∨ n = 1 ∨ n = 3) ∧ ∃ msg, (Action.main C os rand).exit = .logFatal msg)) ∧
    (∃ pk sig n,
      (Minimal.main C os rand).stdout
        = ([str "::set-output name=publickey::" ++ pk ++ str "\n",
            str "::set-output name=signature::" ++ sig ++ str "\n"]).take n ∧
      ((Minimal.main C os rand).exit = .returned → n = 2) ∧
      ((Minimal.main C os rand).exit ≠ .returned → n = 0 ∨ n = 1)) := by
  refine ⟨?_, minimal_main_shape C os rand⟩
  rcases action_main_shape C os rand with ⟨hne, hf, info, pk, sig, sha, n, hn, hout, hinfo⟩ |
    ⟨info, priv, rand1, pubBytes, artifact, sigBytes, rand2, envSigBytes, rand3, selfHash,
      hg, hmar, hread, hs1, hs2, hinfo, hmain⟩
  · refine ⟨info, pk, sig, sha, [], [], n, hout, hinfo, fun h => absurd h hne,
      fun _ => ⟨hn, hf⟩⟩
  · refine ⟨info, _, _, _, _, _, 5, by rw [hmain]; rfl, Or.inr hinfo, fun _ => rfl, ?_⟩
    intro hne
    rw [hmain] at hne
    exact absurd rfl hne

set_option maxRecDepth 1000000 in
/-- C7, as stated, fails: when the artifact cannot be read, both signers end in a fatal error
after having emitted `publickey`. -/
theorem publickey_emitted_before_fatal :
    Action.main Example.crypto
        ⟨[str "verifyme", str "artifact.txt"], Example.withoutArtifact, Example.noEnv⟩ ()
      = ⟨[str "Starting verifier with:  artifact.txt\n",
          str "Self hash:  " ++ Hex.EncodeToString (Sha256.checkSum (str "binary")) ++ str "\n"]
          ++ Action.logOutput (str "publickey") Example.p256Text,
        .logFatal (str "no such file or directory")⟩ ∧
    Minimal.main Example.crypto
        ⟨[str "verifyme", str "artifact.txt"], Example.withoutArtifact, Example.noEnv⟩ ()
      = ⟨[str "::set-output name=publickey::" ++ Example.p256Text ++ str "\n"],
        .logFatal (str "no such file or directory")⟩ := by
  decide

/-! ## C8: the serialization of the envelope -/

theorem envelope_Marshal_eq (e : Action.envelope) :
    e.Marshal = str "\x7b\"RunUrl\":" ++ Json.encodeString e.RunUrl
      ++ str ",\"GitHubSha\":" ++ Json.encodeString e.GitHubSha
      ++ str ",\"ArtifactSha\":" ++ Json.encodeString e.ArtifactSha
      ++ str ",\"VerifierSha\":" ++ Json.encodeString e.VerifierSha ++ str "\x7d" := by
  have h1 : str "\x7b\"RunUrl\":" = [123, 34] ++ str "RunUrl" ++ [34, 58] := by decide
  have h2 : str ",\"GitHubSha\":" = [44, 34] ++ str "GitHubSha" ++ [34, 58] := by decide
  have h3 : str ",\"ArtifactSha\":" = [44, 34] ++ str "ArtifactSha" ++ [34, 58] := by decide
  have h4 : str ",\"VerifierSha\":" = [44, 34] ++ str "VerifierSha" ++ [34, 58] := by decide
  have h5 : str "\x7d" = [125] := by decide
  rw [h1, h2, h3, h4, h5]
  simp [Action.envelope.Marshal, Action.envelope.fields, Json.marshalStruct, Json.structFields]

/-- C8: the serialization of an envelope is the JSON object of its four string members in the
order `RunUrl`, `GitHubSha`, `ArtifactSha`, `VerifierSha`, with nothing between the tokens and
no control character (no tab, newline or carriage return) anywhere, and it depends on the field
values alone: two envelopes with the same field values have the same serialized bytes, the same
`environment` base64 text and the same digest to be signed. -/
theorem envelope_canonical (e : Action.envelope) :
    e.Marshal = str "\x7b\"RunUrl\":" ++ Json.encodeString e.RunUrl
      ++ str ",\"GitHubSha\":" ++ Json.encodeString e.GitHubSha
      ++ str ",\"ArtifactSha\":" ++ Json.encodeString e.ArtifactSha
      ++ str ",\"VerifierSha\":" ++ Json.encodeString e.VerifierSha ++ str "\x7d" ∧
    (∀ c ∈ e.Marshal, 0x20 ≤ c.toNat) ∧
    ∀ e2 : Action.envelope, e2.RunUrl = e.RunUrl → e2.GitHubSha = e.GitHubSha →
      e2.ArtifactSha = e.ArtifactSha → e2.VerifierSha = e.VerifierSha →
      e2.Marshal = e.Marshal ∧
      Base64.EncodeToString e2.Marshal = Base64.EncodeToString e.Marshal ∧
      (Sha256.New.Write (Base64.EncodeToString e2.Marshal)).Sum
        = (Sha256.New.Write (Base64.EncodeToString e.Marshal)).Sum := by
  refine ⟨envelope_Marshal_eq e, ?_, ?_⟩
  · rw [envelope_Marshal_eq e]
    intro c hc
    simp only [List.mem_append] at hc
    have hl : ∀ l : Bytes, (∀ x ∈ l, 0x20 ≤ x.toNat) → c ∈ l → 0x20 ≤ c.toNat :=
      fun l h hm => h c hm
    rcases hc with ((((((((h | h) | h) | h) | h) | h) | h) | h) | h)
    · exact hl _ (by decide) h
    · exact Json.encodeString_printable _ c h
    · exact hl _ (by decide) h
    · exact Json.encodeString_printable _ c h
    · exact hl _ (by decide) h
    · exact Json.encodeString_printable _ c h
    · exact hl _ (by decide) h
    · exact Json.encodeString_printable _ c h
    · exact hl _ (by decide) h
  · intro e2 ha hb hc hd
    have : e2 = e := by
      cases e2
      cases e
      simp only at ha hb hc hd
      subst ha hb hc hd
      rfl
    subst this
    exact ⟨rfl, rfl, rfl⟩

set_option maxRecDepth 1000000 in
/-- C8 on an example: an envelope whose fields are given in another order serializes to the
same bytes as the one given in declaration order, and those bytes are the expected text. -/
theorem envelope_canonical_example :
    Action.envelope.Marshal
        { VerifierSha := str "00", ArtifactSha := str "ff", GitHubSha := str "a b",
          RunUrl := str "https://github.com/o/r/actions/runs/1" }
      = Action.envelope.Marshal
        { RunUrl := str "https://github.com/o/r/actions/runs/1", GitHubSha := str "a b",
          ArtifactSha := str "ff", VerifierSha := str "00" } ∧
    Action.envelope.Marshal
        { RunUrl := str "https://github.com/o/r/actions/runs/1", GitHubSha := str "a b",
          ArtifactSha := str "ff", VerifierSha := str "00" }
      = str "\x7b\"RunUrl\":\"https://github.com/o/r/actions/runs/1\",\"GitHubSha\":\"a b\",\"ArtifactSha\":\"ff\",\"VerifierSha\":\"00\"\x7d" :=
  ⟨((envelope_canonical
      { RunUrl := str "https://github.com/o/r/actions/runs/1", GitHubSha := str "a b",
        ArtifactSha := str "ff", VerifierSha := str "00" }).2.2
      { VerifierSha := str "00", ArtifactSha := str "ff", GitHubSha := str "a b",
        RunUrl := str "https://github.com/o/r/actions/runs/1" } rfl rfl rfl rfl).1,
   by decide⟩

end VerifyMe
